import Mathlib

/-!
Verification development for the gemini-vision video-analysis core
(`src/lib/gemini.ts`).

The development shallow-embeds:

* the shot-analysis response normalizer of `analyzeVideo` (fence
  stripping, trimming, brace slicing, the five textual regex repairs and
  the `JSON.parse` step, lines 199-230 of `gemini.ts`);
* the analysis orchestrator `analyzeVideo` itself, with the external
  model gateway and the file encoder abstracted as an environment of
  call outcomes (the sequencing, flag handling, failure policy and
  session-store write are from the source);
* the session store and `askFollowUpQuestion`;
* the YouTube-URL predicate `isValidYouTubeUrl`.

JavaScript specifics that the embedding reproduces:

* `String.replace` with a global regex scans left to right, never
  rescans replaced output, and continues after the end of each match;
  each regex used by the source has disjoint character classes, so the
  greedy scan is deterministic and is modeled by a recursive scanner;
* `indexOf` / `lastIndexOf` / `slice` brace extraction, including the
  degenerate case where the last brace precedes the first;
* `JSON.parse` strictness (double-quoted strings, no trailing commas,
  exact literals, at most one top-level value), with duplicate object
  keys resolved last-wins as in JavaScript; numbers are kept as their
  lexemes since no claim compares numeric values;
* truthiness: `includeSummary !== false` versus `if (flag)` for the
  other facets, `summary || undefined`, `customPrompt || default`,
  `shotAnalysis.length > 0 ? shotAnalysis : undefined`.
-/

/-- The backquote character (written via its code point). -/
def bq : Char := Char.ofNat 96

/-- JavaScript regex `\s` class (ECMAScript WhiteSpace + LineTerminator). -/
def jsWS (c : Char) : Bool :=
  c = ' ' || c = '\t' || c = '\n' || c = '\r' || c = '\x0b' || c = '\x0c' ||
  c = '\u00A0' || c = '\u1680' || c = '\u2000' || c = '\u2001' || c = '\u2002' ||
  c = '\u2003' || c = '\u2004' || c = '\u2005' || c = '\u2006' || c = '\u2007' ||
  c = '\u2008' || c = '\u2009' || c = '\u200A' || c = '\u2028' || c = '\u2029' ||
  c = '\u202F' || c = '\u205F' || c = '\u3000' || c = '\uFEFF'

/-- JSON whitespace accepted by `JSON.parse` between tokens. -/
def jsonWS (c : Char) : Bool :=
  c = ' ' || c = '\t' || c = '\n' || c = '\r'

/-- Character class `[a-zA-Z0-9_]` of the property-name repair regex. -/
def identAC (c : Char) : Bool :=
  c.isAlpha || c.isDigit || c = '_'

/-- Character class `[a-zA-Z0-9_-]` of the bare-value repair regexes. -/
def identBC (c : Char) : Bool :=
  c.isAlpha || c.isDigit || c = '_' || c = '-'

/-- Recognize the pattern `BQBQBQjson` at the head of the input, returning
the rest after it. -/
def fence1Rest (l : List Char) : Option (List Char) :=
  match l with
  | c1 :: c2 :: c3 :: 'j' :: 's' :: 'o' :: 'n' :: r =>
    if c1 = bq ∧ c2 = bq ∧ c3 = bq then some r else none
  | _ => none

/-- Recognize the pattern `BQBQBQ` at the head of the input, returning the
rest after it. -/
def fence2Rest (l : List Char) : Option (List Char) :=
  match l with
  | c1 :: c2 :: c3 :: r =>
    if c1 = bq ∧ c2 = bq ∧ c3 = bq then some r else none
  | _ => none

/-- Scanner for `.replace(/BQBQBQjson\s*|g, \x27\x27)` (the code-fence-with-tag
strip): on a match the pattern plus the following whitespace run is removed
and scanning resumes after it; otherwise the character is kept.  Fuel is the
length of the input, which each step strictly decreases. -/
def strip1Go : Nat → List Char → List Char
  | 0, l => l
  | _ + 1, [] => []
  | f + 1, c :: rest =>
    match fence1Rest (c :: rest) with
    | some r => strip1Go f (r.dropWhile jsWS)
    | none => c :: strip1Go f rest

def strip1 (s : List Char) : List Char := strip1Go s.length s

/-- Scanner for `.replace(/BQBQBQ\s*|g, \x27\x27)` (the bare code-fence strip). -/
def strip2Go : Nat → List Char → List Char
  | 0, l => l
  | _ + 1, [] => []
  | f + 1, c :: rest =>
    match fence2Rest (c :: rest) with
    | some r => strip2Go f (r.dropWhile jsWS)
    | none => c :: strip2Go f rest

def strip2 (s : List Char) : List Char := strip2Go s.length s

/-- `.replace(/^\s*|\s*$/g, \x27\x27)`: trim leading and trailing `\s`. -/
def jsTrim (s : List Char) : List Char :=
  ((s.dropWhile jsWS).reverse.dropWhile jsWS).reverse

/-- Lines 206-211: `indexOf(\x27\x7b\x27)`, `lastIndexOf(\x27\x7d\x27)`, and
`slice(first, last + 1)` when both exist (JavaScript `slice` clamps to the
empty string when the end does not exceed the start). -/
def braceSlice (s : List Char) : List Char :=
  match s.findIdx? (fun c => c = '{'), s.reverse.findIdx? (fun c => c = '}') with
  | some i, some j => (s.take (s.length - j)).drop i
  | _, _ => s

/-- Scanner for `.replace(/([\x7b,])\s*([a-zA-Z0-9_]+)\s*:/g, \x27$1"$2":\x27)`
(quote bare property names).  The replacement drops the whitespace runs. -/
def repairAGo : Nat → List Char → List Char
  | 0, l => l
  | _ + 1, [] => []
  | f + 1, c :: rest =>
    if c = '{' ∨ c = ',' then
      let r1 := rest.dropWhile jsWS
      let idt := r1.takeWhile identAC
      let r2 := (r1.dropWhile identAC).dropWhile jsWS
      match idt, r2 with
      | _ :: _, ':' :: r3 => c :: '"' :: (idt ++ '"' :: ':' :: repairAGo f r3)
      | _, _ => c :: repairAGo f rest
    else c :: repairAGo f rest

def repairA (s : List Char) : List Char := repairAGo s.length s

/-- Occurrence test matching `repairAGo`: true iff the property-name repair
would rewrite something. -/
def hasTrigA : List Char → Bool
  | [] => false
  | c :: rest =>
    if c = '{' ∨ c = ',' then
      let r1 := rest.dropWhile jsWS
      let idt := r1.takeWhile identAC
      let r2 := (r1.dropWhile identAC).dropWhile jsWS
      match idt, r2 with
      | _ :: _, ':' :: _ => true
      | _, _ => hasTrigA rest
    else hasTrigA rest

/-- Scanner for `.replace(/:\s*([a-zA-Z0-9_-]+)\s*([,\x7d])/g, \x27:"$1"$2\x27)`
(quote bare scalar values before a comma or closing brace). -/
def repairBGo : Nat → List Char → List Char
  | 0, l => l
  | _ + 1, [] => []
  | f + 1, c :: rest =>
    if c = ':' then
      let r1 := rest.dropWhile jsWS
      let idt := r1.takeWhile identBC
      let r2 := (r1.dropWhile identBC).dropWhile jsWS
      match idt, r2 with
      | _ :: _, c2 :: r3 =>
        if c2 = ',' ∨ c2 = '}' then c :: '"' :: (idt ++ '"' :: c2 :: repairBGo f r3)
        else c :: repairBGo f rest
      | _, _ => c :: repairBGo f rest
    else c :: repairBGo f rest

def repairB (s : List Char) : List Char := repairBGo s.length s

/-- Occurrence test matching `repairBGo`. -/
def hasTrigB : List Char → Bool
  | [] => false
  | c :: rest =>
    if c = ':' then
      let r1 := rest.dropWhile jsWS
      let idt := r1.takeWhile identBC
      let r2 := (r1.dropWhile identBC).dropWhile jsWS
      match idt, r2 with
      | _ :: _, c2 :: _ =>
        if c2 = ',' ∨ c2 = '}' then true else hasTrigB rest
      | _, _ => hasTrigB rest
    else hasTrigB rest

/-- Scanner for `.replace(/:\s*([a-zA-Z0-9_-]+)\s*$/g, \x27:"$1"\x27)` (quote a
bare scalar value at the end of the string). -/
def repairCGo : Nat → List Char → List Char
  | 0, l => l
  | _ + 1, [] => []
  | f + 1, c :: rest =>
    if c = ':' then
      let r1 := rest.dropWhile jsWS
      let idt := r1.takeWhile identBC
      let r2 := (r1.dropWhile identBC).dropWhile jsWS
      if idt ≠ [] ∧ r2 = [] then c :: '"' :: (idt ++ ['"'])
      else c :: repairCGo f rest
    else c :: repairCGo f rest

def repairC (s : List Char) : List Char := repairCGo s.length s

/-- Occurrence test matching `repairCGo`. -/
def hasTrigC : List Char → Bool
  | [] => false
  | c :: rest =>
    if c = ':' then
      let r1 := rest.dropWhile jsWS
      let idt := r1.takeWhile identBC
      let r2 := (r1.dropWhile identBC).dropWhile jsWS
      if idt ≠ [] ∧ r2 = [] then true
      else hasTrigC rest
    else hasTrigC rest

/-- Scanner for `.replace(/,(\s*[\x7d\]])/g, \x27$1\x27)` (remove a trailing
comma; the captured whitespace and bracket are kept). -/
def repairDGo : Nat → List Char → List Char
  | 0, l => l
  | _ + 1, [] => []
  | f + 1, c :: rest =>
    if c = ',' then
      let ws := rest.takeWhile jsWS
      let r1 := rest.dropWhile jsWS
      match r1 with
      | c2 :: r2 =>
        if c2 = '}' ∨ c2 = ']' then ws ++ c2 :: repairDGo f r2
        else c :: repairDGo f rest
      | [] => c :: repairDGo f rest
    else c :: repairDGo f rest

def repairD (s : List Char) : List Char := repairDGo s.length s

/-- Occurrence test matching `repairDGo`. -/
def hasTrigD : List Char → Bool
  | [] => false
  | c :: rest =>
    if c = ',' then
      let r1 := rest.dropWhile jsWS
      match r1 with
      | c2 :: _ =>
        if c2 = '}' ∨ c2 = ']' then true else hasTrigD rest
      | [] => hasTrigD rest
    else hasTrigD rest

/-- Scanner for
`.replace(/([\x7b,])\s*([a-zA-Z0-9_]+)\s*:\s*undefined/g, \x27$1"$2":null\x27)`
(rewrite `undefined` values to `null`). -/
def repairEGo : Nat → List Char → List Char
  | 0, l => l
  | _ + 1, [] => []
  | f + 1, c :: rest =>
    if c = '{' ∨ c = ',' then
      let r1 := rest.dropWhile jsWS
      let idt := r1.takeWhile identAC
      let r2 := (r1.dropWhile identAC).dropWhile jsWS
      match r2 with
      | ':' :: r3 =>
        let r4 := r3.dropWhile jsWS
        match idt, r4 with
        | _ :: _, 'u' :: 'n' :: 'd' :: 'e' :: 'f' :: 'i' :: 'n' :: 'e' :: 'd' :: r5 =>
          c :: '"' :: (idt ++ '"' :: ':' :: 'n' :: 'u' :: 'l' :: 'l' :: repairEGo f r5)
        | _, _ => c :: repairEGo f rest
      | _ => c :: repairEGo f rest
    else c :: repairEGo f rest

def repairE (s : List Char) : List Char := repairEGo s.length s

/-- Occurrence test matching `repairEGo`. -/
def hasTrigE : List Char → Bool
  | [] => false
  | c :: rest =>
    if c = '{' ∨ c = ',' then
      let r1 := rest.dropWhile jsWS
      let idt := r1.takeWhile identAC
      let r2 := (r1.dropWhile identAC).dropWhile jsWS
      match r2 with
      | ':' :: r3 =>
        let r4 := r3.dropWhile jsWS
        match idt, r4 with
        | _ :: _, 'u' :: 'n' :: 'd' :: 'e' :: 'f' :: 'i' :: 'n' :: 'e' :: 'd' :: _ => true
        | _, _ => hasTrigE rest
      | _ => hasTrigE rest
    else hasTrigE rest

/-- Lines 200-219 of `gemini.ts`: the full textual cleaning pipeline applied
to the raw model reply before `JSON.parse`. -/
def cleanChars (s : List Char) : List Char :=
  repairE (repairD (repairC (repairB (repairA (braceSlice (jsTrim (strip2 (strip1 s))))))))

/-- Parsed JSON values.  Numbers keep their source lexeme: no claim compares
numeric magnitudes, and this avoids conflating distinct floating-point
spellings. -/
inductive JValue where
  | jnull : JValue
  | jbool (b : Bool) : JValue
  | jnum (lexeme : String) : JValue
  | jstr (s : String) : JValue
  | jarr (elems : List JValue) : JValue
  | jobj (fields : List (String × JValue)) : JValue

/-- Skip JSON inter-token whitespace. -/
def skipWS (s : List Char) : List Char := s.dropWhile jsonWS

/-- Hex digit value, for `\uXXXX` string escapes. -/
def hexVal (c : Char) : Option Nat :=
  if '0' ≤ c ∧ c ≤ '9' then some (c.toNat - '0'.toNat)
  else if 'a' ≤ c ∧ c ≤ 'f' then some (c.toNat - 'a'.toNat + 10)
  else if 'A' ≤ c ∧ c ≤ 'F' then some (c.toNat - 'A'.toNat + 10)
  else none

/-- Decode a single-character JSON string escape (everything but `\u`). -/
def escChar (e : Char) : Option Char :=
  if e = '"' ∨ e = '\\' ∨ e = '/' then some e
  else if e = 'b' then some '\x08'
  else if e = 'f' then some '\x0c'
  else if e = 'n' then some '\n'
  else if e = 'r' then some '\r'
  else if e = 't' then some '\t'
  else none

/-- Parse the body of a JSON string after the opening quote; returns the
decoded characters and the rest of the input after the closing quote.
Raw control characters below `0x20` are rejected, as in `JSON.parse`. -/
def parseStrGo : Nat → List Char → Option (List Char × List Char)
  | 0, _ => none
  | _ + 1, [] => none
  | f + 1, c :: rest =>
    if c = '"' then some ([], rest)
    else if c = '\\' then
      match rest with
      | [] => none
      | 'u' :: r2 =>
        match r2 with
        | h1 :: h2 :: h3 :: h4 :: r3 =>
          match hexVal h1, hexVal h2, hexVal h3, hexVal h4 with
          | some v1, some v2, some v3, some v4 =>
            match parseStrGo f r3 with
            | some (cs, r) =>
              some (Char.ofNat (((v1 * 16 + v2) * 16 + v3) * 16 + v4) :: cs, r)
            | none => none
          | _, _, _, _ => none
        | _ => none
      | e :: r2 =>
        match escChar e with
        | some d =>
          match parseStrGo f r2 with
          | some (cs, r) => some (d :: cs, r)
          | none => none
        | none => none
    else if c.toNat < 32 then none
    else
      match parseStrGo f rest with
      | some (cs, r) => some (c :: cs, r)
      | none => none

/-- Characters that can occur inside a JSON number literal. -/
def numChar (c : Char) : Bool :=
  c.isDigit || c = '.' || c = '-' || c = '+' || c = 'e' || c = 'E'

/-- Whole-lexeme check of the JSON number grammar
`-?(0|[1-9][0-9]*)(\.[0-9]+)?([eE][+-]?[0-9]+)?`. -/
def numLexOk (l : List Char) : Bool :=
  let l1 := match l with
    | '-' :: t => t
    | _ => l
  match l1 with
  | [] => false
  | c :: t =>
    if ¬ c.isDigit then false
    else
      let t2 := if c = '0' then t else t.dropWhile Char.isDigit
      let t3 : Option (List Char) := match t2 with
        | '.' :: fr =>
          if fr.takeWhile Char.isDigit = [] then none
          else some (fr.dropWhile Char.isDigit)
        | _ => some t2
      match t3 with
      | none => false
      | some t4 =>
        match t4 with
        | [] => true
        | e :: er =>
          if e = 'e' ∨ e = 'E' then
            let er2 := match er with
              | s1 :: er3 => if s1 = '+' ∨ s1 = '-' then er3 else er
              | [] => er
            (¬ er2.isEmpty) && er2.all Char.isDigit
          else false

/-- Parse a JSON number: take the maximal run of number characters and
validate it against the grammar.  This is equivalent to the strict
`JSON.parse` number reader: a valid number can never be directly followed by
another number character, so both accept exactly the maximal-run-valid
inputs and reject the rest. -/
def parseNum (s : List Char) : Option (List Char × List Char) :=
  if numLexOk (s.takeWhile numChar) then
    some (s.takeWhile numChar, s.dropWhile numChar)
  else none

/-- Pending container frames of the JSON stack machine. -/
inductive Frame where
  | arr (done : List JValue) : Frame
  | obj (done : List (String × JValue)) (key : String) : Frame

/-- States of the JSON stack machine: either about to parse a value, or just
finished one. -/
inductive PState where
  | toParse (s : List Char) (stk : List Frame) : PState
  | closed (v : JValue) (s : List Char) (stk : List Frame) : PState

/-- One-pass `JSON.parse` as a fueled stack machine.  Every recursive step
consumes at least one input character, so fuel `length + 2` never runs out. -/
def pstep : Nat → PState → Option JValue
  | 0, _ => none
  | f + 1, PState.toParse s stk =>
    match skipWS s with
    | [] => none
    | c :: r =>
      if c = '"' then
        match parseStrGo r.length r with
        | some (cs, rest) => pstep f (PState.closed (JValue.jstr (String.mk cs)) rest stk)
        | none => none
      else if c = '{' then
        match skipWS r with
        | '}' :: r2 => pstep f (PState.closed (JValue.jobj []) r2 stk)
        | '"' :: r2 =>
          match parseStrGo r2.length r2 with
          | some (ks, r3) =>
            match skipWS r3 with
            | ':' :: r4 => pstep f (PState.toParse r4 (Frame.obj [] (String.mk ks) :: stk))
            | _ => none
          | none => none
        | _ => none
      else if c = '[' then
        match skipWS r with
        | ']' :: r2 => pstep f (PState.closed (JValue.jarr []) r2 stk)
        | _ => pstep f (PState.toParse r (Frame.arr [] :: stk))
      else if c = 't' then
        match r with
        | 'r' :: 'u' :: 'e' :: r2 => pstep f (PState.closed (JValue.jbool true) r2 stk)
        | _ => none
      else if c = 'f' then
        match r with
        | 'a' :: 'l' :: 's' :: 'e' :: r2 => pstep f (PState.closed (JValue.jbool false) r2 stk)
        | _ => none
      else if c = 'n' then
        match r with
        | 'u' :: 'l' :: 'l' :: r2 => pstep f (PState.closed JValue.jnull r2 stk)
        | _ => none
      else
        match parseNum (c :: r) with
        | some (lx, rest) => pstep f (PState.closed (JValue.jnum (String.mk lx)) rest stk)
        | none => none
  | f + 1, PState.closed v s stk =>
    match stk with
    | [] => if skipWS s = [] then some v else none
    | Frame.arr done :: stk2 =>
      match skipWS s with
      | ',' :: r => pstep f (PState.toParse r (Frame.arr (done ++ [v]) :: stk2))
      | ']' :: r => pstep f (PState.closed (JValue.jarr (done ++ [v])) r stk2)
      | _ => none
    | Frame.obj done key :: stk2 =>
      match skipWS s with
      | ',' :: r =>
        match skipWS r with
        | '"' :: r2 =>
          match parseStrGo r2.length r2 with
          | some (ks, r3) =>
            match skipWS r3 with
            | ':' :: r4 =>
              pstep f (PState.toParse r4 (Frame.obj (done ++ [(key, v)]) (String.mk ks) :: stk2))
            | _ => none
          | none => none
        | _ => none
      | '}' :: r => pstep f (PState.closed (JValue.jobj (done ++ [(key, v)])) r stk2)
      | _ => none

/-- `JSON.parse` on a character list: `none` models a thrown `SyntaxError`. -/
def jsonParseChars (s : List Char) : Option JValue :=
  pstep (s.length + 2) (PState.toParse s [])

/-- `JSON.parse` on a string. -/
def jsonParse (s : String) : Option JValue := jsonParseChars s.data

/-- Property lookup on a parsed JavaScript object: the last duplicate key
wins, as with repeated keys in a JavaScript object literal. -/
def getField (fields : List (String × JValue)) (k : String) : Option JValue :=
  fields.foldl (fun acc p => if p.1 = k then some p.2 else acc) none

/-- Line 225-227: `parsedResponse && Array.isArray(parsedResponse.shots)`
keeps the `shots` array, anything else leaves the empty record list. -/
def shotsOf (v : JValue) : List JValue :=
  match v with
  | JValue.jobj fields =>
    match getField fields "shots" with
    | some (JValue.jarr xs) => xs
    | _ => []
  | _ => []

/-- Lines 199-230: the whole shot-analysis normalizer.  The boolean is true
exactly when the `catch` branch ran, i.e. when `JSON.parse` threw and the
parse-error diagnostic was logged; the record list is what ends up in
`shotAnalysis`.  The normalizer is a total function: no exception escapes. -/
def normalizeShots (raw : String) : List JValue × Bool :=
  match jsonParseChars (cleanChars raw.data) with
  | some v => (shotsOf v, false)
  | none => ([], true)

/-- Media variants of `VideoSource.data`: an uploaded `File` (name and MIME
type; the byte contents live behind the encoder oracle) or a YouTube URL. -/
inductive VideoData where
  | file (name : String) (mimeType : String) : VideoData
  | youtube (url : String) : VideoData

/-- The `VideoSource` record (lines 32-40).  The optional booleans model
TypeScript `boolean | undefined`; `none` is an omitted flag. -/
structure VideoSource where
  data : VideoData
  customPrompt : Option String := none
  includeTranscription : Option Bool := none
  includeVisualDescription : Option Bool := none
  includeShotAnalysis : Option Bool := none
  includeSummary : Option Bool := none

/-- The transport payload sent with every facet call (lines 66-83). -/
inductive Payload where
  | inlineData (data : String) (mimeType : String) : Payload
  | text (s : String) : Payload

/-- The four facets for which `analyzeVideo` can invoke the model gateway,
in source order: summary, shot analysis, transcription, visual description. -/
inductive Facet where
  | summary : Facet
  | shots : Facet
  | transcription : Facet
  | visual : Facet
deriving DecidableEq

/-- Outcomes of the external calls `analyzeVideo` makes: the
`fileToBase64` read and one `generateContent` reply per facet.  `Except.error`
models a rejected promise (thrown exception). -/
structure Env where
  encode : Except String String
  reply : Facet → Except String String

/-- Speaker roles of the chat history (`role: "user" | "model"`). -/
inductive Role where
  | user : Role
  | model : Role
deriving DecidableEq

/-- One turn of a chat history. -/
structure ChatTurn where
  role : Role
  text : String

/-- A stored session (lines 43-53): the model handle, the video payload and
the conversational state held by the SDK `ChatSession`. -/
structure Session where
  modelName : String
  videoData : Payload
  history : List ChatTurn

/-- The session store: `activeChatSessions` is a `Map` from session id to
session, modeled as a function into `Option Session`. -/
def SessionStore : Type := String → Option Session

/-- `Map.set`: point update of the store. -/
def updateStore (st : SessionStore) (k : String) (v : Session) : SessionStore :=
  fun k2 => if k2 = k then some v else st k2

/-- The empty session store (fresh process). -/
def emptyStore : SessionStore := fun _ => none

/-- `generateSessionId` (lines 56-62); `now` stands for `Date.now()`. -/
def generateSessionId (src : VideoSource) (now : Nat) : String :=
  match src.data with
  | VideoData.file name _ => "file-" ++ name ++ "-" ++ toString now
  | VideoData.youtube url => "youtube-" ++ url ++ "-" ++ toString now

/-- The analysis result record (lines 6-13).  A missing optional field is
`none`. -/
structure VideoAnalysisResult where
  summary : Option String := none
  transcription : Option String := none
  visualDescription : Option String := none
  shotAnalysis : Option (List JValue) := none
  error : Option String := none
  sessionId : Option String := none

/-- The generic analysis failure string (line 285). -/
def analyzeErrorMsg : String := "Failed to analyze video. Please try again."

/-- The follow-up failure string (line 304). -/
def followUpErrorMsg : String := "Failed to get a response. Please try again."

/-- The default summary prompt (line 89). -/
def defaultSummaryPrompt : String :=
  "Please analyze this video and provide a detailed summary of what\x27s happening in it. Focus on the main events, actions, and any notable details."

/-- `videoSource.customPrompt || defaultSummaryPrompt`: JavaScript `||`
falls through on the empty string as well as on `undefined`. -/
def summaryPromptOf (src : VideoSource) : String :=
  match src.customPrompt with
  | some p => if p = "" then defaultSummaryPrompt else p
  | none => defaultSummaryPrompt

/-- JavaScript `t || undefined` for the result fields (lines 275-277). -/
def emptyToNone (s : String) : Option String :=
  if s = "" then none else some s

/-- The catch-all failure result of `analyzeVideo` (lines 283-286):
`summary` present and empty, `error` set, everything else absent. -/
def failResult : VideoAnalysisResult :=
  { summary := some "", error := some analyzeErrorMsg }

/-- Lines 68-83: build the request payload; a `fileToBase64` rejection
aborts with the encoder's error. -/
def encodePayload (src : VideoSource) (env : Env) : Except String Payload :=
  match src.data with
  | VideoData.file _ mime =>
    match env.encode with
    | Except.ok b64 => Except.ok (Payload.inlineData b64 mime)
    | Except.error e => Except.error e
  | VideoData.youtube url => Except.ok (Payload.text url)

/-- Lines 253-280: open the chat session seeded with the summary exchange,
store it under a fresh id, and assemble the success result. -/
def finishAnalyze (src : VideoSource) (store : SessionStore) (now : Nat)
    (videoData : Payload) (summary transcription visualDescription : String)
    (shotAnalysis : List JValue) (log : List Facet) :
    VideoAnalysisResult × SessionStore × List Facet :=
  let sessionId := generateSessionId src now
  let chatSession : Session :=
    { modelName := "gemini-2.0-flash", videoData := videoData,
      history := [⟨Role.user, summaryPromptOf src⟩, ⟨Role.model, summary⟩] }
  ({ summary := emptyToNone summary,
     transcription := emptyToNone transcription,
     visualDescription := emptyToNone visualDescription,
     shotAnalysis := if shotAnalysis.length > 0 then some shotAnalysis else none,
     error := none,
     sessionId := some sessionId },
   updateStore store sessionId chatSession, log)

/-- Lines 243-251: the visual-description facet (runs only when its flag is
exactly `true`), then finish. -/
def stepVisual (src : VideoSource) (env : Env) (store : SessionStore) (now : Nat)
    (videoData : Payload) (summary transcription : String)
    (shotAnalysis : List JValue) (log : List Facet) :
    VideoAnalysisResult × SessionStore × List Facet :=
  if src.includeVisualDescription = some true then
    match env.reply Facet.visual with
    | Except.error _ => (failResult, store, log ++ [Facet.visual])
    | Except.ok t =>
      finishAnalyze src store now videoData summary transcription t shotAnalysis
        (log ++ [Facet.visual])
  else finishAnalyze src store now videoData summary transcription "" shotAnalysis log

/-- Lines 233-241: the transcription facet, then visual description. -/
def stepTranscription (src : VideoSource) (env : Env) (store : SessionStore) (now : Nat)
    (videoData : Payload) (summary : String) (shotAnalysis : List JValue)
    (log : List Facet) : VideoAnalysisResult × SessionStore × List Facet :=
  if src.includeTranscription = some true then
    match env.reply Facet.transcription with
    | Except.error _ => (failResult, store, log ++ [Facet.transcription])
    | Except.ok t =>
      stepVisual src env store now videoData summary t shotAnalysis
        (log ++ [Facet.transcription])
  else stepVisual src env store now videoData summary "" shotAnalysis log

/-- Lines 192-231: the shot-analysis facet; its raw reply runs through the
normalizer, whose diagnostic is only logged, then transcription. -/
def stepShots (src : VideoSource) (env : Env) (store : SessionStore) (now : Nat)
    (videoData : Payload) (summary : String) (log : List Facet) :
    VideoAnalysisResult × SessionStore × List Facet :=
  if src.includeShotAnalysis = some true then
    match env.reply Facet.shots with
    | Except.error _ => (failResult, store, log ++ [Facet.shots])
    | Except.ok t =>
      stepTranscription src env store now videoData summary (normalizeShots t).1
        (log ++ [Facet.shots])
  else stepTranscription src env store now videoData summary [] log

/-- Lines 182-190: the summary facet runs unless `includeSummary` is
exactly `false` (`!== false`), then shot analysis. -/
def stepSummary (src : VideoSource) (env : Env) (store : SessionStore) (now : Nat)
    (videoData : Payload) : VideoAnalysisResult × SessionStore × List Facet :=
  if src.includeSummary = some false then
    stepShots src env store now videoData "" []
  else
    match env.reply Facet.summary with
    | Except.error _ => (failResult, store, [Facet.summary])
    | Except.ok t => stepShots src env store now videoData t [Facet.summary]

/-- `analyzeVideo` (lines 64-288) as a pure function of the source, the
external-call outcomes, the session store and the clock.  It returns the
result record, the updated store, and the list of facet gateway calls that
were issued, in order.  Any external failure lands in the catch-all and
produces `failResult` with the store untouched. -/
def analyzeVideo (src : VideoSource) (env : Env)
    (activeChatSessions : SessionStore) (now : Nat) :
    VideoAnalysisResult × SessionStore × List Facet :=
  match encodePayload src env with
  | Except.error _ => (failResult, activeChatSessions, [])
  | Except.ok videoData => stepSummary src env activeChatSessions now videoData

/-- `askFollowUpQuestion` (lines 291-306): an unknown id throws
`Session not found`, which the catch turns into the failure string; on
success the SDK chat appends the (question, answer) exchange to the
session's history.  `send` is the outcome of `chat.sendMessage`. -/
def askFollowUpQuestion (sessionId question : String)
    (send : Except String String) (activeChatSessions : SessionStore) :
    String × SessionStore :=
  match activeChatSessions sessionId with
  | none => (followUpErrorMsg, activeChatSessions)
  | some session =>
    match send with
    | Except.error _ => (followUpErrorMsg, activeChatSessions)
    | Except.ok answer =>
      (answer,
       updateStore activeChatSessions sessionId
         { session with
           history := session.history ++ [⟨Role.user, question⟩, ⟨Role.model, answer⟩] })

/-- Character class `[a-zA-Z0-9_-]` of the YouTube id segment. -/
def isUrlIdChar (c : Char) : Bool :=
  c.isAlpha || c.isDigit || c = '_' || c = '-'

/-- Match a literal pattern at the head of the input, returning the rest. -/
def dropPref : List Char → List Char → Option (List Char)
  | [], s => some s
  | _ :: _, [] => none
  | p :: ps, c :: cs => if c = p then dropPref ps cs else none

/-- The terminal `[a-zA-Z0-9_-]\x7b11\x7d$` of the YouTube regex. -/
def idOk (s : List Char) : Bool :=
  s.length == 11 && s.all isUrlIdChar

/-- The host alternation `(youtube\.com\/watch\?v=|youtu\.be\/)` followed by
the id; ordered alternation with backtracking is a disjunction here. -/
def hostMatch (s : List Char) : Bool :=
  (match dropPref "youtube.com/watch?v=".data s with
   | some r => idOk r
   | none => false) ||
  (match dropPref "youtu.be/".data s with
   | some r => idOk r
   | none => false)

/-- The optional `(www\.)?` group: try consuming it, else match without. -/
def wwwMatch (s : List Char) : Bool :=
  (match dropPref "www.".data s with
   | some r => hostMatch r
   | none => false) || hostMatch s

/-- `isValidYouTubeUrl` (lines 327-330): the anchored regex
`^(https?:\/\/)?(www\.)?(youtube\.com\/watch\?v=|youtu\.be\/)[a-zA-Z0-9_-]\x7b11\x7d$`. -/
def isValidYouTubeUrl (url : String) : Bool :=
  (match dropPref "https://".data url.data with
   | some r => wwwMatch r
   | none => false) ||
  (match dropPref "http://".data url.data with
   | some r => wwwMatch r
   | none => false) ||
  wwwMatch url.data

/-- Code-fence wrapping with the `json` language tag. -/
def wrapJson (t : String) : String := "```json\n" ++ t ++ "\n```"

/-- Code-fence wrapping without a language tag. -/
def wrapPlain (t : String) : String := "```\n" ++ t ++ "\n```"

/-- A well-formed shot-analysis reply whose string value contains a
comma-identifier-colon sequence: `JSON.parse` accepts it directly, but the
property-name repair rewrites inside the string and breaks it. -/
def badC1 : String := "\x7b\"shots\":[\x7b\"character\":\"x, y: z\"\x7d]\x7d"

/-- The value `JSON.parse` returns for `badC1` directly. -/
def badC1Val : JValue :=
  JValue.jobj [("shots", JValue.jarr [JValue.jobj [("character", JValue.jstr "x, y: z")]])]

/-- A canonical well-formed shot-analysis reply (no repair triggers). -/
def goodC1 : String :=
  "\x7b\"shots\": [\x7b\"uniqueId\": \"shot1\", \"movement\": \"static\"\x7d]\x7d"

/-- The value `JSON.parse` returns for `goodC1`. -/
def goodC1Val : JValue :=
  JValue.jobj [("shots", JValue.jarr
    [JValue.jobj [("uniqueId", JValue.jstr "shot1"), ("movement", JValue.jstr "static")]])]

/-- The seven closed tag vocabularies of `ShotAnalysis` (lines 18-24), each
token paired with its property name. -/
def enumVocab : List (String × String) :=
  [("shotType", "clean"), ("shotType", "OTS"), ("shotType", "dirty-single"),
   ("shotType", "POV"), ("shotType", "insert"), ("shotType", "two-shot"),
   ("shotType", "three-shot"), ("shotType", "master"),
   ("shotType", "moving-master"),
   ("frame", "wide"), ("frame", "cowboy"), ("frame", "medium"),
   ("frame", "cu"), ("frame", "ecu"),
   ("movement", "push"), ("movement", "pull"), ("movement", "follow"),
   ("movement", "lead"), ("movement", "pan"), ("movement", "tilt"),
   ("movement", "tracking"), ("movement", "boom-up"),
   ("movement", "boom-down"), ("movement", "zoom"), ("movement", "static"),
   ("camera", "static"), ("camera", "handheld"), ("camera", "steadicam"),
   ("camera", "dolly"), ("camera", "jib"), ("camera", "crane"),
   ("camera", "drone"),
   ("angle", "eye-level"), ("angle", "high"), ("angle", "low"),
   ("angle", "dutch"), ("angle", "overhead"), ("angle", "aerial"),
   ("lens", "shallow"), ("lens", "deep"),
   ("eyeline", "hot"), ("eyeline", "warm"), ("eyeline", "cold")]

/-- A text containing the unquoted-enum pattern `"movement": static` that is
not otherwise well formed. -/
def cexC3 : String := "\x7b\"movement\": static, !!!\x7d"

/-- A concrete stored session for witnesses. -/
def sess0 : Session :=
  { modelName := "gemini-2.0-flash",
    videoData := Payload.text "https://youtu.be/dQw4w9WgXcQ",
    history := [⟨Role.user, "p"⟩, ⟨Role.model, "s"⟩] }

/-- A concrete one-entry session store for witnesses. -/
def store0 : SessionStore := updateStore emptyStore "sid-1" sess0

/-- A YouTube source requesting the default facets plus transcription. -/
def srcTFail : VideoSource :=
  { data := VideoData.youtube "https://youtu.be/dQw4w9WgXcQ",
    includeTranscription := some true }

/-- An environment whose transcription call fails after the others succeed. -/
def envTFail : Env :=
  { encode := Except.ok "b64",
    reply := fun fc => match fc with
      | Facet.transcription => Except.error "network failure"
      | _ => Except.ok "hello" }

/-- A YouTube source requesting only the summary facet. -/
def srcSummaryOnly : VideoSource :=
  { data := VideoData.youtube "https://youtu.be/dQw4w9WgXcQ",
    includeSummary := some true,
    includeTranscription := some false,
    includeVisualDescription := some false,
    includeShotAnalysis := some false }

/-- A YouTube source with every facet flag omitted. -/
def srcAllOmitted : VideoSource :=
  { data := VideoData.youtube "https://youtu.be/dQw4w9WgXcQ" }

/-- An environment where every external call succeeds. -/
def envAllOk : Env :=
  { encode := Except.ok "b64", reply := fun _ => Except.ok "hello" }

/-- The characters of a closing code fence preceded by a newline. -/
def fenceTail : List Char := '\n' :: bq :: bq :: bq :: []

/-- No pending object frame on the parser stack. -/
def NoObjFrame (stk : List Frame) : Prop := ∀ d k, Frame.obj d k ∉ stk

/-- The value is not a JavaScript object. -/
def NotJObj (v : JValue) : Prop := ∀ fs, v ≠ JValue.jobj fs

/-- Machine states reachable when the original text contains no `\x7b`:
no brace in the remaining input, no object frame, and any finished value is
not an object. -/
def NoLBState : PState → Prop
  | PState.toParse s stk => '{' ∉ s ∧ NoObjFrame stk
  | PState.closed v s stk => '{' ∉ s ∧ NoObjFrame stk ∧ NotJObj v

/-- Machine states reachable when the original text contains no `\x7d`:
no closing brace in the remaining input and any finished value is not an
object (an object frame can be opened but never closed). -/
def NoRBState : PState → Prop
  | PState.toParse s _ => '}' ∉ s
  | PState.closed v s _ => '}' ∉ s ∧ NotJObj v

/-! Basic facts about the scanners. -/

/-- The tagged-fence pattern requires a backquote first. -/
theorem fence1Rest_eq_none_of_head (c : Char) (rest : List Char) (hc : c ≠ bq) :
    fence1Rest (c :: rest) = none := by
  unfold fence1Rest
  split
  · rename_i heq
    injection heq with h1 h2
    subst h1
    rw [if_neg (by intro hh; exact hc hh.1)]
  · rfl

/-- The bare-fence pattern requires a backquote first. -/
theorem fence2Rest_eq_none_of_head (c : Char) (rest : List Char) (hc : c ≠ bq) :
    fence2Rest (c :: rest) = none := by
  unfold fence2Rest
  split
  · rename_i heq
    injection heq with h1 h2
    subst h1
    rw [if_neg (by intro hh; exact hc hh.1)]
  · rfl

theorem strip1Go_nil (f : Nat) : strip1Go f [] = [] := by
  cases f <;> rfl

theorem strip2Go_nil (f : Nat) : strip2Go f [] = [] := by
  cases f <;> rfl

/-- Scanning through a backquote-free chunk copies it verbatim. -/
theorem strip1Go_append_noBT (l s0 : List Char) (h : ∀ c ∈ l, c ≠ bq) :
    ∀ f, strip1Go f (l ++ s0) = l ++ strip1Go (f - l.length) s0 := by
  induction l with
  | nil => intro f; simp
  | cons c l ih =>
    intro f
    have hc : c ≠ bq := h c (by simp)
    cases f with
    | zero =>
      have : strip1Go 0 s0 = s0 := rfl
      simp [strip1Go, this]
    | succ f =>
      have h2 : ∀ x ∈ l, x ≠ bq := fun x hx => h x (by simp [hx])
      simp only [List.cons_append, strip1Go, List.append_eq,
        fence1Rest_eq_none_of_head c (l ++ s0) hc, List.length_cons]
      have heq : f + 1 - (l.length + 1) = f - l.length := by omega
      rw [heq]
      exact congrArg (List.cons c) (ih h2 f)

theorem strip2Go_append_noBT (l s0 : List Char) (h : ∀ c ∈ l, c ≠ bq) :
    ∀ f, strip2Go f (l ++ s0) = l ++ strip2Go (f - l.length) s0 := by
  induction l with
  | nil => intro f; simp
  | cons c l ih =>
    intro f
    have hc : c ≠ bq := h c (by simp)
    cases f with
    | zero =>
      have : strip2Go 0 s0 = s0 := rfl
      simp [strip2Go, this]
    | succ f =>
      have h2 : ∀ x ∈ l, x ≠ bq := fun x hx => h x (by simp [hx])
      simp only [List.cons_append, strip2Go, List.append_eq,
        fence2Rest_eq_none_of_head c (l ++ s0) hc, List.length_cons]
      have heq : f + 1 - (l.length + 1) = f - l.length := by omega
      rw [heq]
      exact congrArg (List.cons c) (ih h2 f)

/-- A backquote-free text passes the first fence strip unchanged. -/
theorem strip1_of_noBT (s : List Char) (h : ∀ c ∈ s, c ≠ bq) : strip1 s = s := by
  have := strip1Go_append_noBT s [] h s.length
  simpa [strip1Go_nil] using this

/-- A backquote-free text passes the second fence strip unchanged. -/
theorem strip2_of_noBT (s : List Char) (h : ∀ c ∈ s, c ≠ bq) : strip2 s = s := by
  have := strip2Go_append_noBT s [] h s.length
  simpa [strip2Go_nil] using this

/-- With no property-name trigger present, the first repair is the identity. -/
theorem repairAGo_eq_of_not_trig : ∀ (l : List Char), hasTrigA l = false →
    ∀ f, repairAGo f l = l := by
  intro l
  induction l with
  | nil => intro _ f; cases f <;> rfl
  | cons c rest ih =>
    intro h f
    cases f with
    | zero => rfl
    | succ f =>
      by_cases hc : c = '{' ∨ c = ','
      · rw [repairAGo]
        rw [hasTrigA] at h
        simp only [if_pos hc] at h ⊢
        split at h
        · exact absurd h (by simp)
        · exact congrArg (List.cons c) (ih h f)
      · rw [repairAGo]
        rw [hasTrigA] at h
        simp only [if_neg hc] at h ⊢
        exact congrArg (List.cons c) (ih h f)

/-- With no bare-value trigger present, the second repair is the identity. -/
theorem repairBGo_eq_of_not_trig : ∀ (l : List Char), hasTrigB l = false →
    ∀ f, repairBGo f l = l := by
  intro l
  induction l with
  | nil => intro _ f; cases f <;> rfl
  | cons c rest ih =>
    intro h f
    cases f with
    | zero => rfl
    | succ f =>
      by_cases hc : c = ':'
      · rw [repairBGo]
        rw [hasTrigB] at h
        simp only [if_pos hc] at h ⊢
        split at h
        · rename_i heq1 heq2
          split at h
          · exact absurd h (by simp)
          · rename_i hsep
            rw [if_neg hsep]
            exact congrArg (List.cons c) (ih h f)
        · exact congrArg (List.cons c) (ih h f)
      · rw [repairBGo]
        rw [hasTrigB] at h
        simp only [if_neg hc] at h ⊢
        exact congrArg (List.cons c) (ih h f)

/-- With no end-of-string bare-value trigger, the third repair is the
identity. -/
theorem repairCGo_eq_of_not_trig : ∀ (l : List Char), hasTrigC l = false →
    ∀ f, repairCGo f l = l := by
  intro l
  induction l with
  | nil => intro _ f; cases f <;> rfl
  | cons c rest ih =>
    intro h f
    cases f with
    | zero => rfl
    | succ f =>
      by_cases hc : c = ':'
      · rw [repairCGo]
        rw [hasTrigC] at h
        simp only [if_pos hc] at h ⊢
        split at h
        · exact absurd h (by simp)
        · rename_i hcond
          rw [if_neg hcond]
          exact congrArg (List.cons c) (ih h f)
      · rw [repairCGo]
        rw [hasTrigC] at h
        simp only [if_neg hc] at h ⊢
        exact congrArg (List.cons c) (ih h f)

/-- With no trailing-comma trigger present, the fourth repair is the
identity. -/
theorem repairDGo_eq_of_not_trig : ∀ (l : List Char), hasTrigD l = false →
    ∀ f, repairDGo f l = l := by
  intro l
  induction l with
  | nil => intro _ f; cases f <;> rfl
  | cons c rest ih =>
    intro h f
    cases f with
    | zero => rfl
    | succ f =>
      by_cases hc : c = ','
      · rw [repairDGo]
        rw [hasTrigD] at h
        simp only [if_pos hc] at h ⊢
        split at h
        · rename_i heq
          split at h
          · exact absurd h (by simp)
          · rename_i hclose
            rw [if_neg hclose]
            exact congrArg (List.cons c) (ih h f)
        · exact congrArg (List.cons c) (ih h f)
      · rw [repairDGo]
        rw [hasTrigD] at h
        simp only [if_neg hc] at h ⊢
        exact congrArg (List.cons c) (ih h f)

/-- With no `undefined`-value trigger present, the fifth repair is the
identity. -/
theorem repairEGo_eq_of_not_trig : ∀ (l : List Char), hasTrigE l = false →
    ∀ f, repairEGo f l = l := by
  intro l
  induction l with
  | nil => intro _ f; cases f <;> rfl
  | cons c rest ih =>
    intro h f
    cases f with
    | zero => rfl
    | succ f =>
      by_cases hc : c = '{' ∨ c = ','
      · rw [repairEGo]
        rw [hasTrigE] at h
        simp only [if_pos hc] at h ⊢
        split at h
        · split at h
          · exact absurd h (by simp)
          · exact congrArg (List.cons c) (ih h f)
        · exact congrArg (List.cons c) (ih h f)
      · rw [repairEGo]
        rw [hasTrigE] at h
        simp only [if_neg hc] at h ⊢
        exact congrArg (List.cons c) (ih h f)

/-- Identity of the repairs at the list level. -/
theorem repairA_eq_of_not_trig (s : List Char) (h : hasTrigA s = false) :
    repairA s = s := repairAGo_eq_of_not_trig s h s.length

theorem repairB_eq_of_not_trig (s : List Char) (h : hasTrigB s = false) :
    repairB s = s := repairBGo_eq_of_not_trig s h s.length

theorem repairC_eq_of_not_trig (s : List Char) (h : hasTrigC s = false) :
    repairC s = s := repairCGo_eq_of_not_trig s h s.length

theorem repairD_eq_of_not_trig (s : List Char) (h : hasTrigD s = false) :
    repairD s = s := repairDGo_eq_of_not_trig s h s.length

theorem repairE_eq_of_not_trig (s : List Char) (h : hasTrigE s = false) :
    repairE s = s := repairEGo_eq_of_not_trig s h s.length

/-- Trimming is the identity when both ends are not `\s`. -/
theorem jsTrim_eq_self (s : List Char) (h1 : ∀ c, s.head? = some c → jsWS c = false)
    (h2 : ∀ c, s.getLast? = some c → jsWS c = false) : jsTrim s = s := by
  unfold jsTrim
  have hd : s.dropWhile jsWS = s := by
    cases s with
    | nil => rfl
    | cons a t => rw [List.dropWhile_cons, if_neg (by simp [h1 a rfl])]
  rw [hd]
  have hr : s.reverse.dropWhile jsWS = s.reverse := by
    cases hrev : s.reverse with
    | nil => rfl
    | cons a t =>
      have hha : s.getLast? = some a := by
        rw [← List.head?_reverse, hrev]; rfl
      rw [List.dropWhile_cons, if_neg (by simp [h2 a hha])]
  rw [hr, List.reverse_reverse]

/-- Brace slicing is the identity when the text starts with the opening and
ends with the closing brace. -/
theorem braceSlice_eq_self_of_braces (s : List Char) (h1 : s.head? = some '{')
    (h2 : s.getLast? = some '}') : braceSlice s = s := by
  unfold braceSlice
  have hf1 : s.findIdx? (fun c => c = '{') = some 0 := by
    cases s with
    | nil => simp at h1
    | cons a t =>
      have ha : a = '{' := by simpa using h1
      subst ha
      simp [List.findIdx?_cons]
  have hf2 : s.reverse.findIdx? (fun c => c = '}') = some 0 := by
    have hh : s.reverse.head? = some '}' := by rw [List.head?_reverse]; exact h2
    cases hr : s.reverse with
    | nil => rw [hr] at hh; simp at hh
    | cons a u =>
      rw [hr] at hh
      have ha : a = '}' := by simpa using hh
      subst ha
      simp [List.findIdx?_cons]
  rw [hf1, hf2]
  simp

/-- With no backquotes, no repair triggers, and braces at both ends, the
whole textual pipeline is the identity. -/
theorem cleanChars_eq_self (s : List Char)
    (hbq : ∀ c ∈ s, c ≠ bq)
    (hta : hasTrigA s = false) (htb : hasTrigB s = false)
    (htc : hasTrigC s = false) (htd : hasTrigD s = false)
    (hte : hasTrigE s = false)
    (hhead : s.head? = some '{') (hlast : s.getLast? = some '}') :
    cleanChars s = s := by
  unfold cleanChars
  rw [strip1_of_noBT s hbq, strip2_of_noBT s hbq,
    jsTrim_eq_self s
      (fun c hc => by rw [hhead] at hc; injection hc with h; subst h; decide)
      (fun c hc => by rw [hlast] at hc; injection hc with h; subst h; decide),
    braceSlice_eq_self_of_braces s hhead hlast,
    repairA_eq_of_not_trig s hta, repairB_eq_of_not_trig s htb,
    repairC_eq_of_not_trig s htc, repairD_eq_of_not_trig s htd,
    repairE_eq_of_not_trig s hte]

/-- C1 (amended): for well-formed shot-analysis JSON that contains no
code-fence backquotes, none of the five repair trigger patterns (in
particular, string values do not contain a brace or comma followed by a bare
identifier and a colon, nor a colon followed by a bare token and a comma or
closing brace, and there is no comma directly before a closing bracket), and
whose trimmed form starts with `\x7b` and ends with `\x7d`, the full
normalization pipeline returns exactly the record list obtained by parsing
the input directly, with no parse diagnostic. -/
theorem c1_wellformed_pipeline_identity (s : String) (v : JValue)
    (hbq : s.data.all (fun c => c != bq) = true)
    (hta : hasTrigA s.data = false) (htb : hasTrigB s.data = false)
    (htc : hasTrigC s.data = false) (htd : hasTrigD s.data = false)
    (hte : hasTrigE s.data = false)
    (hhead : s.data.head? = some '{') (hlast : s.data.getLast? = some '}')
    (hparse : jsonParse s = some v) :
    normalizeShots s = (shotsOf v, false) := by
  have hnb : ∀ c ∈ s.data, c ≠ bq := by
    intro c hc
    have h := List.all_eq_true.mp hbq c hc
    simpa using h
  have hclean : cleanChars s.data = s.data :=
    cleanChars_eq_self s.data hnb hta htb htc htd hte hhead hlast
  unfold normalizeShots
  rw [hclean]
  unfold jsonParse at hparse
  rw [hparse]

/-- C1 counterexample: `badC1` is well-formed shot-analysis JSON (all
property names and string values double-quoted, no trailing commas): direct
parsing yields one record.  The normalization pipeline, however, rewrites
inside the string value `x, y: z`, the repaired text no longer parses, and
the pipeline returns the empty list with a parse diagnostic instead of the
directly-parsed record list. -/
theorem c1_counterexample :
    jsonParse badC1 = some badC1Val ∧
    shotsOf badC1Val = [JValue.jobj [("character", JValue.jstr "x, y: z")]] ∧
    normalizeShots badC1 = ([], true) :=
  ⟨rfl, rfl, rfl⟩

/-- Witness: the amended C1 theorem applied to a concrete canonical reply. -/
theorem c1_witness : normalizeShots goodC1 = (shotsOf goodC1Val, false) :=
  c1_wellformed_pipeline_identity goodC1 goodC1Val rfl rfl rfl rfl rfl rfl rfl
    rfl rfl

/-- C3 (amended): for every token of the seven closed tag vocabularies that
appears unquoted after its quoted key in an otherwise well-formed shots
object, the repair pipeline wraps the bare token in double quotes, the
subsequent parse succeeds, and the record carries the token as a string
value.  (The unqualified claim over every input text containing the pattern
fails when the rest of the text is malformed; see the counterexample.) -/
theorem c3_unquoted_enum_repaired :
    ∀ p ∈ enumVocab,
      normalizeShots
          ("\x7b\"shots\": [\x7b\"" ++ p.1 ++ "\": " ++ p.2 ++ "\x7d]\x7d") =
        ([JValue.jobj [(p.1, JValue.jstr p.2)]], false) := by
  intro p hp
  fin_cases hp <;> rfl

/-- C3 counterexample: `cexC3` contains the unquoted enum pattern
`"movement": static` before a comma, and the repair does wrap the token in
quotes, but the subsequent parse fails (the rest of the text is malformed),
so the pipeline does not yield the claimed record: the claim is false as a
statement about every input text containing the pattern. -/
theorem c3_counterexample :
    cleanChars cexC3.data = "\x7b\"movement\":\"static\", !!!\x7d".data ∧
    normalizeShots cexC3 = ([], true) :=
  ⟨rfl, rfl⟩

/-- Witness: the amended C3 theorem applied at the spec's own example token
`static`. -/
theorem c3_witness :
    normalizeShots
        ("\x7b\"shots\": [\x7b\"" ++ "movement" ++ "\": " ++ "static" ++ "\x7d]\x7d") =
      ([JValue.jobj [("movement", JValue.jstr "static")]], false) :=
  c3_unquoted_enum_repaired ("movement", "static") (by decide)

/-- The rest returned by the string-body parser is a suffix of its input. -/
theorem parseStrGo_rest_suffix : ∀ f s cs rest,
    parseStrGo f s = some (cs, rest) → rest <:+ s := by
  intro f
  induction f with
  | zero => intro s cs rest h; simp [parseStrGo] at h
  | succ f ih =>
    intro s cs rest h
    match s with
    | [] => simp [parseStrGo] at h
    | c :: r =>
      simp only [parseStrGo] at h
      split_ifs at h with h1 h2 h3
      · simp only [Option.some.injEq, Prod.mk.injEq] at h
        obtain ⟨ha, hb⟩ := h
        subst hb
        exact List.suffix_cons c r
      · split at h
        · simp at h
        · split at h
          · rename_i h1c h2c h3c h4c r3
            split at h
            · rename_i v1 v2 v3 v4 hv1 hv2 hv3 hv4
              split at h
              · rename_i cs2 r4 hrec
                simp only [Option.some.injEq, Prod.mk.injEq] at h
                obtain ⟨ha, hb⟩ := h
                subst hb
                refine (ih r3 cs2 r4 hrec).trans ?_
                refine List.IsSuffix.trans ?_ (List.suffix_cons c _)
                refine List.IsSuffix.trans ?_ (List.suffix_cons 'u' _)
                exact (List.suffix_cons h4c _).trans ((List.suffix_cons h3c _).trans
                  ((List.suffix_cons h2c _).trans (List.suffix_cons h1c _)))
              · simp at h
            · simp at h
          · simp at h
        · split at h
          · rename_i d hd
            split at h
            · rename_i cs2 r4 hrec
              simp only [Option.some.injEq, Prod.mk.injEq] at h
              obtain ⟨ha, hb⟩ := h
              subst hb
              refine (ih _ cs2 r4 hrec).trans ?_
              exact (List.suffix_cons _ _).trans (List.suffix_cons c _)
            · simp at h
          · simp at h
      · split at h
        · rename_i cs2 r4 hrec
          simp only [Option.some.injEq, Prod.mk.injEq] at h
          obtain ⟨ha, hb⟩ := h
          subst hb
          exact (ih r cs2 r4 hrec).trans (List.suffix_cons c r)
        · simp at h

/-- The rest returned by the number parser is a suffix of its input. -/
theorem parseNum_rest_suffix (s lx rest : List Char)
    (h : parseNum s = some (lx, rest)) : rest <:+ s := by
  unfold parseNum at h
  split_ifs at h
  simp only [Option.some.injEq, Prod.mk.injEq] at h
  obtain ⟨ha, hb⟩ := h
  subst hb
  exact List.dropWhile_suffix _

/-- Shape of a tagged-fence match. -/
theorem fence1Rest_eq_some (l r : List Char) (h : fence1Rest l = some r) :
    l = bq :: bq :: bq :: 'j' :: 's' :: 'o' :: 'n' :: r := by
  unfold fence1Rest at h
  split at h
  · rename_i c1 c2 c3 rr
    split_ifs at h with hcond
    obtain ⟨h1, h2, h3⟩ := hcond
    injection h with h4
    subst h4 h1 h2 h3
    rfl
  · simp at h

theorem fence2Rest_eq_some (l r : List Char) (h : fence2Rest l = some r) :
    l = bq :: bq :: bq :: r := by
  unfold fence2Rest at h
  split at h
  · rename_i c1 c2 c3 rr
    split_ifs at h with hcond
    obtain ⟨h1, h2, h3⟩ := hcond
    injection h with h4
    subst h4 h1 h2 h3
    rfl
  · simp at h

theorem mem_strip1Go : ∀ f l a, a ∈ strip1Go f l → a ∈ l := by
  intro f
  induction f with
  | zero => intro l a h; exact h
  | succ f ih =>
    intro l a h
    match l with
    | [] => simp [strip1Go] at h
    | c :: rest =>
      simp only [strip1Go] at h
      split at h
      · rename_i r heq
        have h2 : a ∈ r := (List.dropWhile_suffix jsWS).subset (ih _ a h)
        rw [fence1Rest_eq_some _ _ heq]
        simp [h2]
      · rcases List.mem_cons.mp h with h4 | h4
        · simp [h4]
        · exact List.mem_cons_of_mem c (ih _ a h4)

theorem mem_strip2Go : ∀ f l a, a ∈ strip2Go f l → a ∈ l := by
  intro f
  induction f with
  | zero => intro l a h; exact h
  | succ f ih =>
    intro l a h
    match l with
    | [] => simp [strip2Go] at h
    | c :: rest =>
      simp only [strip2Go] at h
      split at h
      · rename_i r heq
        have h2 : a ∈ r := (List.dropWhile_suffix jsWS).subset (ih _ a h)
        rw [fence2Rest_eq_some _ _ heq]
        simp [h2]
      · rcases List.mem_cons.mp h with h4 | h4
        · simp [h4]
        · exact List.mem_cons_of_mem c (ih _ a h4)

theorem mem_jsTrim (s : List Char) (a : Char) (h : a ∈ jsTrim s) : a ∈ s := by
  unfold jsTrim at h
  rw [List.mem_reverse] at h
  have h2 := (List.dropWhile_suffix jsWS).subset h
  rw [List.mem_reverse] at h2
  exact (List.dropWhile_suffix jsWS).subset h2

theorem mem_braceSlice (s : List Char) (a : Char) (h : a ∈ braceSlice s) : a ∈ s := by
  unfold braceSlice at h
  split at h
  · exact ((s.take _).drop_sublist _).subset h |> (s.take_sublist _).subset
  · exact h

/-- Characters produced by the property-name repair come from the input or
are inserted quote or colon characters. -/
theorem mem_repairAGo : ∀ f l a, a ∈ repairAGo f l → a ∈ l ∨ a = '"' ∨ a = ':' := by
  intro f
  induction f with
  | zero => intro l a h; exact Or.inl h
  | succ f ih =>
    intro l a h
    match l with
    | [] => simp [repairAGo] at h
    | c :: rest =>
      rw [repairAGo] at h
      split_ifs at h with hc
      · simp only [] at h
        split at h
        · rename_i i it r3 heq1 heq2
          simp only [List.mem_cons, List.mem_append] at h
          rcases h with h | h | h | h
          · exact Or.inl (by simp [h])
          · exact Or.inr (Or.inl h)
          · have h3 : a ∈ rest :=
              (List.dropWhile_suffix jsWS).subset ((List.takeWhile_sublist _).subset h)
            exact Or.inl (List.mem_cons_of_mem c h3)
          · rcases h with h | h
            · exact Or.inr (Or.inl h)
            · rcases h with h | h
              · exact Or.inr (Or.inr h)
              · rcases ih _ a h with h4 | h4
                · have h5 : a ∈ (':' :: r3 : List Char) := List.mem_cons_of_mem _ h4
                  rw [← heq2] at h5
                  have h6 : a ∈ rest :=
                    (List.dropWhile_suffix jsWS).subset
                      ((List.dropWhile_suffix identAC).subset
                        ((List.dropWhile_suffix jsWS).subset h5))
                  exact Or.inl (List.mem_cons_of_mem c h6)
                · exact Or.inr h4
        · rcases List.mem_cons.mp h with h4 | h4
          · exact Or.inl (by simp [h4])
          · rcases ih _ a h4 with h5 | h5
            · exact Or.inl (List.mem_cons_of_mem c h5)
            · exact Or.inr h5
      · rcases List.mem_cons.mp h with h4 | h4
        · exact Or.inl (by simp [h4])
        · rcases ih _ a h4 with h5 | h5
          · exact Or.inl (List.mem_cons_of_mem c h5)
          · exact Or.inr h5

/-- Characters produced by the bare-value repair come from the input or are
inserted quotes. -/
theorem mem_repairBGo : ∀ f l a, a ∈ repairBGo f l → a ∈ l ∨ a = '"' := by
  intro f
  induction f with
  | zero => intro l a h; exact Or.inl h
  | succ f ih =>
    intro l a h
    match l with
    | [] => simp [repairBGo] at h
    | c :: rest =>
      rw [repairBGo] at h
      split_ifs at h with hc
      · simp only [] at h
        split at h
        · rename_i i it c2 r3 heq1 heq2
          split_ifs at h with hsep
          · simp only [List.mem_cons, List.mem_append] at h
            rcases h with h | h | h | h | h | h
            · exact Or.inl (by simp [h])
            · exact Or.inr h
            · exact Or.inl (List.mem_cons_of_mem c
                ((List.dropWhile_suffix jsWS).subset ((List.takeWhile_sublist _).subset h)))
            · exact Or.inr h
            · subst h
              refine Or.inl (List.mem_cons_of_mem c ?_)
              have h5 : (a : Char) ∈ a :: r3 := by simp
              rw [← heq2] at h5
              exact (List.dropWhile_suffix jsWS).subset
                ((List.dropWhile_suffix identBC).subset ((List.dropWhile_suffix jsWS).subset h5))
            · rcases ih _ a h with h4 | h4
              · refine Or.inl (List.mem_cons_of_mem c ?_)
                have h5 : a ∈ (c2 :: r3 : List Char) := List.mem_cons_of_mem _ h4
                rw [← heq2] at h5
                exact (List.dropWhile_suffix jsWS).subset
                  ((List.dropWhile_suffix identBC).subset ((List.dropWhile_suffix jsWS).subset h5))
              · exact Or.inr h4
          · rcases List.mem_cons.mp h with h4 | h4
            · exact Or.inl (by simp [h4])
            · rcases ih _ a h4 with h5 | h5
              · exact Or.inl (List.mem_cons_of_mem c h5)
              · exact Or.inr h5
        · rcases List.mem_cons.mp h with h4 | h4
          · exact Or.inl (by simp [h4])
          · rcases ih _ a h4 with h5 | h5
            · exact Or.inl (List.mem_cons_of_mem c h5)
            · exact Or.inr h5
      · rcases List.mem_cons.mp h with h4 | h4
        · exact Or.inl (by simp [h4])
        · rcases ih _ a h4 with h5 | h5
          · exact Or.inl (List.mem_cons_of_mem c h5)
          · exact Or.inr h5

theorem mem_repairCGo : ∀ f l a, a ∈ repairCGo f l → a ∈ l ∨ a = '"' := by
  intro f
  induction f with
  | zero => intro l a h; exact Or.inl h
  | succ f ih =>
    intro l a h
    match l with
    | [] => simp [repairCGo] at h
    | c :: rest =>
      rw [repairCGo] at h
      split_ifs at h with hc
      · simp only [] at h
        split_ifs at h with hcond
        · simp only [List.mem_cons, List.mem_append] at h
          rcases h with h | h | h | h
          · exact Or.inl (by simp [h])
          · exact Or.inr h
          · exact Or.inl (List.mem_cons_of_mem c
              ((List.dropWhile_suffix jsWS).subset ((List.takeWhile_sublist _).subset h)))
          · exact Or.inr (by simpa using h)
        · rcases List.mem_cons.mp h with h4 | h4
          · exact Or.inl (by simp [h4])
          · rcases ih _ a h4 with h5 | h5
            · exact Or.inl (List.mem_cons_of_mem c h5)
            · exact Or.inr h5
      · rcases List.mem_cons.mp h with h4 | h4
        · exact Or.inl (by simp [h4])
        · rcases ih _ a h4 with h5 | h5
          · exact Or.inl (List.mem_cons_of_mem c h5)
          · exact Or.inr h5

theorem mem_repairDGo : ∀ f l a, a ∈ repairDGo f l → a ∈ l := by
  intro f
  induction f with
  | zero => intro l a h; exact h
  | succ f ih =>
    intro l a h
    match l with
    | [] => simp [repairDGo] at h
    | c :: rest =>
      rw [repairDGo] at h
      split_ifs at h with hc
      · simp only [] at h
        split at h
        · rename_i c2 r2 heq
          split_ifs at h with hclose
          · simp only [List.mem_cons, List.mem_append] at h
            rcases h with h | h | h
            · exact List.mem_cons_of_mem c ((List.takeWhile_sublist _).subset h)
            · subst h
              refine List.mem_cons_of_mem c ?_
              have h5 : (a : Char) ∈ a :: r2 := by simp
              rw [← heq] at h5
              exact (List.dropWhile_suffix jsWS).subset h5
            · have h4 := ih _ a h
              refine List.mem_cons_of_mem c ?_
              have h5 : a ∈ (c2 :: r2 : List Char) := List.mem_cons_of_mem _ h4
              rw [← heq] at h5
              exact (List.dropWhile_suffix jsWS).subset h5
          · rcases List.mem_cons.mp h with h4 | h4
            · simp [h4]
            · exact List.mem_cons_of_mem c (ih _ a h4)
        · rcases List.mem_cons.mp h with h4 | h4
          · simp [h4]
          · exact List.mem_cons_of_mem c (ih _ a h4)
      · rcases List.mem_cons.mp h with h4 | h4
        · simp [h4]
        · exact List.mem_cons_of_mem c (ih _ a h4)

theorem mem_repairEGo : ∀ f l a, a ∈ repairEGo f l →
    a ∈ l ∨ a = '"' ∨ a = ':' ∨ a = 'n' ∨ a = 'u' ∨ a = 'l' := by
  intro f
  induction f with
  | zero => intro l a h; exact Or.inl h
  | succ f ih =>
    intro l a h
    match l with
    | [] => simp [repairEGo] at h
    | c :: rest =>
      rw [repairEGo] at h
      split_ifs at h with hc
      · simp only [] at h
        split at h
        · rename_i r3 heq2
          split at h
          · rename_i i it r5 heqidt heq3
            simp only [List.mem_cons, List.mem_append] at h
            have hsub : ∀ x, x ∈ r5 → x ∈ rest := by
              intro x hx
              have h5 : x ∈ List.dropWhile jsWS r3 := by
                rw [heq3]
                simp [hx]
              have h6 : x ∈ (':' :: r3 : List Char) :=
                List.mem_cons_of_mem _ ((List.dropWhile_suffix jsWS).subset h5)
              rw [← heq2] at h6
              exact (List.dropWhile_suffix jsWS).subset
                ((List.dropWhile_suffix identAC).subset ((List.dropWhile_suffix jsWS).subset h6))
            rcases h with h | h | h | h | h | h | h | h | h | h
            · exact Or.inl (by simp [h])
            · tauto
            · exact Or.inl (List.mem_cons_of_mem c
                ((List.dropWhile_suffix jsWS).subset ((List.takeWhile_sublist _).subset h)))
            · tauto
            · tauto
            · tauto
            · tauto
            · tauto
            · tauto
            · rcases ih _ a h with h4 | h4
              · exact Or.inl (List.mem_cons_of_mem c (hsub a h4))
              · tauto
          · rcases List.mem_cons.mp h with h4 | h4
            · exact Or.inl (by simp [h4])
            · rcases ih _ a h4 with h5 | h5
              · exact Or.inl (List.mem_cons_of_mem c h5)
              · exact Or.inr h5
        · rcases List.mem_cons.mp h with h4 | h4
          · exact Or.inl (by simp [h4])
          · rcases ih _ a h4 with h5 | h5
            · exact Or.inl (List.mem_cons_of_mem c h5)
            · exact Or.inr h5
      · rcases List.mem_cons.mp h with h4 | h4
        · exact Or.inl (by simp [h4])
        · rcases ih _ a h4 with h5 | h5
          · exact Or.inl (List.mem_cons_of_mem c h5)
          · exact Or.inr h5

/-- A parse from a no-left-brace state never returns an object. -/
theorem pstep_noLB : ∀ f st, NoLBState st → ∀ v, pstep f st = some v → NotJObj v := by
  intro f
  induction f with
  | zero => intro st _ v h; simp [pstep] at h
  | succ f ih =>
    intro st hinv v h
    match st with
    | PState.toParse s stk =>
      obtain ⟨hs, hstk⟩ := hinv
      simp only [pstep] at h
      split at h
      · simp at h
      · rename_i c r heq
        have hsub : ∀ x, x ∈ (c :: r : List Char) → x ∈ s := by
          intro x hx
          rw [← heq] at hx
          exact (List.dropWhile_suffix jsonWS).subset hx
        have hcr : '{' ∉ (c :: r : List Char) := fun hx => hs (hsub _ hx)
        have hcne : ¬ c = '{' := fun hh => hcr (by simp [hh])
        have hrn : '{' ∉ r := fun hx => hcr (List.mem_cons_of_mem _ hx)
        split_ifs at h with h1 h2 h3 h4 h5
        · split at h
          · rename_i cs rest heq2
            refine ih _ ?_ v h
            refine ⟨?_, hstk, ?_⟩
            · intro hx
              exact hrn ((parseStrGo_rest_suffix _ _ _ _ heq2).subset hx)
            · intro fs hne; cases hne
          · simp at h
        · split at h
          · rename_i r2 heq3
            refine ih _ ?_ v h
            refine ⟨?_, hstk, ?_⟩
            · intro hx
              have h7 : '{' ∈ (']' :: r2 : List Char) := List.mem_cons_of_mem _ hx
              rw [← heq3] at h7
              exact hrn ((List.dropWhile_suffix jsonWS).subset h7)
            · intro fs hne; cases hne
          · refine ih _ ?_ v h
            refine ⟨hrn, ?_⟩
            intro d k hmem
            rcases List.mem_cons.mp hmem with h7 | h7
            · cases h7
            · exact hstk d k h7
        · split at h
          · rename_i r2
            refine ih _ ?_ v h
            refine ⟨?_, hstk, ?_⟩
            · intro hx
              apply hrn
              simp [hx]
            · intro fs hne; cases hne
          · simp at h
        · split at h
          · rename_i r2
            refine ih _ ?_ v h
            refine ⟨?_, hstk, ?_⟩
            · intro hx
              apply hrn
              simp [hx]
            · intro fs hne; cases hne
          · simp at h
        · split at h
          · rename_i r2
            refine ih _ ?_ v h
            refine ⟨?_, hstk, ?_⟩
            · intro hx
              apply hrn
              simp [hx]
            · intro fs hne; cases hne
          · simp at h
        · split at h
          · rename_i lx rest heq5
            refine ih _ ?_ v h
            refine ⟨?_, hstk, ?_⟩
            · intro hx
              exact hcr ((parseNum_rest_suffix _ _ _ heq5).subset hx)
            · intro fs hne; cases hne
          · simp at h
    | PState.closed w s stk =>
      obtain ⟨hs, hstk, hw⟩ := hinv
      simp only [pstep] at h
      split at h
      · split_ifs at h
        injection h with h2
        subst h2
        exact hw
      · rename_i done stk2
        split at h
        · rename_i r heq
          refine ih _ ?_ v h
          refine ⟨?_, ?_⟩
          · intro hx
            have h7 : '{' ∈ (',' :: r : List Char) := List.mem_cons_of_mem _ hx
            rw [← heq] at h7
            exact hs ((List.dropWhile_suffix jsonWS).subset h7)
          · intro d k hmem
            rcases List.mem_cons.mp hmem with h7 | h7
            · cases h7
            · exact hstk d k (List.mem_cons_of_mem _ h7)
        · rename_i r heq
          refine ih _ ?_ v h
          refine ⟨?_, ?_, ?_⟩
          · intro hx
            have h7 : '{' ∈ (']' :: r : List Char) := List.mem_cons_of_mem _ hx
            rw [← heq] at h7
            exact hs ((List.dropWhile_suffix jsonWS).subset h7)
          · intro d k hmem
            exact hstk d k (List.mem_cons_of_mem _ hmem)
          · intro fs hne; cases hne
        · simp at h
      · rename_i done key stk2
        exact absurd (List.mem_cons_self _ _) (hstk done key)

theorem pstep_noRB : ∀ f st, NoRBState st → ∀ v, pstep f st = some v → NotJObj v := by
  intro f
  induction f with
  | zero => intro st _ v h; simp [pstep] at h
  | succ f ih =>
    intro st hinv v h
    match st with
    | PState.toParse s stk =>
      have hs : '}' ∉ s := hinv
      simp only [pstep] at h
      split at h
      · simp at h
      · rename_i c r heq
        have hsub : ∀ x, x ∈ (c :: r : List Char) → x ∈ s := by
          intro x hx
          rw [← heq] at hx
          exact (List.dropWhile_suffix jsonWS).subset hx
        have hcr : '}' ∉ (c :: r : List Char) := fun hx => hs (hsub _ hx)
        have hrn : '}' ∉ r := fun hx => hcr (List.mem_cons_of_mem _ hx)
        split_ifs at h with h1 h2 h3 h4 h5 h6
        · split at h
          · rename_i cs rest heq2
            refine ih _ ?_ v h
            refine ⟨?_, ?_⟩
            · intro hx
              exact hrn ((parseStrGo_rest_suffix _ _ _ _ heq2).subset hx)
            · intro fs hne; cases hne
          · simp at h
        · -- object opening
          split at h
          · rename_i r2 heqo
            exfalso
            apply hrn
            have h7 : '}' ∈ ('}' :: r2 : List Char) := by simp
            rw [← heqo] at h7
            exact (List.dropWhile_suffix jsonWS).subset h7
          · rename_i r2 heqo
            split at h
            · rename_i ks r3 heqk
              split at h
              · rename_i r4 heqc
                refine ih _ ?_ v h
                show '}' ∉ r4
                intro hx
                have h7 : '}' ∈ (':' :: r4 : List Char) := List.mem_cons_of_mem _ hx
                rw [← heqc] at h7
                have h8 : '}' ∈ r3 := (List.dropWhile_suffix jsonWS).subset h7
                have h9 : '}' ∈ r2 := (parseStrGo_rest_suffix _ _ _ _ heqk).subset h8
                have h10 : '}' ∈ ('"' :: r2 : List Char) := List.mem_cons_of_mem _ h9
                rw [← heqo] at h10
                exact hrn ((List.dropWhile_suffix jsonWS).subset h10)
              · simp at h
            · simp at h
          · simp at h
        · split at h
          · rename_i r2 heq3
            refine ih _ ?_ v h
            refine ⟨?_, ?_⟩
            · intro hx
              have h7 : '}' ∈ (']' :: r2 : List Char) := List.mem_cons_of_mem _ hx
              rw [← heq3] at h7
              exact hrn ((List.dropWhile_suffix jsonWS).subset h7)
            · intro fs hne; cases hne
          · refine ih _ ?_ v h
            exact hrn
        · split at h
          · rename_i r2
            refine ih _ ?_ v h
            refine ⟨?_, ?_⟩
            · intro hx
              apply hrn
              simp [hx]
            · intro fs hne; cases hne
          · simp at h
        · split at h
          · rename_i r2
            refine ih _ ?_ v h
            refine ⟨?_, ?_⟩
            · intro hx
              apply hrn
              simp [hx]
            · intro fs hne; cases hne
          · simp at h
        · split at h
          · rename_i r2
            refine ih _ ?_ v h
            refine ⟨?_, ?_⟩
            · intro hx
              apply hrn
              simp [hx]
            · intro fs hne; cases hne
          · simp at h
        · split at h
          · rename_i lx rest heq5
            refine ih _ ?_ v h
            refine ⟨?_, ?_⟩
            · intro hx
              exact hcr ((parseNum_rest_suffix _ _ _ heq5).subset hx)
            · intro fs hne; cases hne
          · simp at h
    | PState.closed w s stk =>
      obtain ⟨hs, hw⟩ := hinv
      simp only [pstep] at h
      split at h
      · split_ifs at h
        injection h with h2
        subst h2
        exact hw
      · rename_i done stk2
        split at h
        · rename_i r heq
          refine ih _ ?_ v h
          show '}' ∉ r
          intro hx
          have h7 : '}' ∈ (',' :: r : List Char) := List.mem_cons_of_mem _ hx
          rw [← heq] at h7
          exact hs ((List.dropWhile_suffix jsonWS).subset h7)
        · rename_i r heq
          refine ih _ ?_ v h
          refine ⟨?_, ?_⟩
          · intro hx
            have h7 : '}' ∈ (']' :: r : List Char) := List.mem_cons_of_mem _ hx
            rw [← heq] at h7
            exact hs ((List.dropWhile_suffix jsonWS).subset h7)
          · intro fs hne; cases hne
        · simp at h
      · rename_i done key stk2
        split at h
        · rename_i r heq
          split at h
          · rename_i r2 heq2
            split at h
            · rename_i ks r3 heqk
              split at h
              · rename_i r4 heqc
                refine ih _ ?_ v h
                show '}' ∉ r4
                intro hx
                have h7 : '}' ∈ (':' :: r4 : List Char) := List.mem_cons_of_mem _ hx
                rw [← heqc] at h7
                have h8 : '}' ∈ r3 := (List.dropWhile_suffix jsonWS).subset h7
                have h9 : '}' ∈ r2 := (parseStrGo_rest_suffix _ _ _ _ heqk).subset h8
                have h10 : '}' ∈ ('"' :: r2 : List Char) := List.mem_cons_of_mem _ h9
                rw [← heq2] at h10
                have h11 : '}' ∈ r := (List.dropWhile_suffix jsonWS).subset h10
                have h12 : '}' ∈ (',' :: r : List Char) := List.mem_cons_of_mem _ h11
                rw [← heq] at h12
                exact hs ((List.dropWhile_suffix jsonWS).subset h12)
              · simp at h
            · simp at h
          · simp at h
        · rename_i r heq
          exfalso
          apply hs
          have h7 : '}' ∈ ('}' :: r : List Char) := by simp
          rw [← heq] at h7
          exact (List.dropWhile_suffix jsonWS).subset h7
        · simp at h

/-- `shotsOf` of a non-object is empty. -/
theorem shotsOf_eq_nil_of_notJObj (v : JValue) (h : NotJObj v) : shotsOf v = [] := by
  match v with
  | JValue.jobj fs => exact absurd rfl (h fs)
  | JValue.jnull => rfl
  | JValue.jbool b => rfl
  | JValue.jnum l => rfl
  | JValue.jstr t => rfl
  | JValue.jarr xs => rfl

/-- The cleaning pipeline never introduces a brace that was absent. -/
theorem braces_not_mem_cleanChars (b : Char) (hb : b = '{' ∨ b = '}')
    (s : List Char) (h : b ∉ s) : b ∉ cleanChars s := by
  intro hmem
  unfold cleanChars repairE repairD repairC repairB repairA strip1 strip2 at hmem
  have hins : b ≠ '"' ∧ b ≠ ':' ∧ b ≠ 'n' ∧ b ≠ 'u' ∧ b ≠ 'l' := by
    rcases hb with hb | hb <;> subst hb <;>
      exact ⟨by decide, by decide, by decide, by decide, by decide⟩
  rcases mem_repairEGo _ _ _ hmem with h1 | h1
  · have h2 := mem_repairDGo _ _ _ h1
    rcases mem_repairCGo _ _ _ h2 with h3 | h3
    · rcases mem_repairBGo _ _ _ h3 with h4 | h4
      · rcases mem_repairAGo _ _ _ h4 with h5 | h5
        · have h6 := mem_braceSlice _ _ h5
          have h7 := mem_jsTrim _ _ h6
          have h8 := mem_strip2Go _ _ _ h7
          have h9 := mem_strip1Go _ _ _ h8
          exact h h9
        · rcases h5 with h5 | h5
          · exact hins.1 h5
          · exact hins.2.1 h5
      · exact hins.1 h4
    · exact hins.1 h3
  · rcases h1 with h1 | h1 | h1 | h1 | h1
    · exact hins.1 h1
    · exact hins.2.1 h1
    · exact hins.2.2.1 h1
    · exact hins.2.2.2.1 h1
    · exact hins.2.2.2.2 h1

/-- C2 (amended): for any input text missing `\x7b` or missing `\x7d`, the
normalizer returns the empty record list (and, being a total function, never
raises past its boundary).  The original claim also promised a diagnostic;
the code skips the brace slice without any dedicated diagnostic, and logs a
parse diagnostic only when the repaired text fails `JSON.parse` — see the
counterexample. -/
theorem c2_no_brace_empty (s : String) (h : '{' ∉ s.data ∨ '}' ∉ s.data) :
    (normalizeShots s).1 = [] := by
  unfold normalizeShots
  cases hp : jsonParseChars (cleanChars s.data) with
  | none => rfl
  | some v =>
    unfold jsonParseChars at hp
    have hnotobj : NotJObj v := by
      rcases h with h | h
      · have hnb : '{' ∉ cleanChars s.data :=
          braces_not_mem_cleanChars '{' (Or.inl rfl) s.data h
        exact pstep_noLB _ (PState.toParse (cleanChars s.data) [])
          ⟨hnb, fun d k hm => (List.not_mem_nil _ hm)⟩ v hp
      · have hnb : '}' ∉ cleanChars s.data :=
          braces_not_mem_cleanChars '}' (Or.inr rfl) s.data h
        exact pstep_noRB _ (PState.toParse (cleanChars s.data) []) hnb v hp
    simpa using shotsOf_eq_nil_of_notJObj v hnotobj

/-- C2 counterexample: the input `[]` contains neither brace, and the
normalizer does return the empty record list, but the repaired text parses
successfully, so the catch branch never runs and no diagnostic is produced —
against the claim that the empty result always comes with a diagnostic. -/
theorem c2_counterexample :
    ("[]".data.all (fun c => c != '{' && c != '}')) = true ∧
    normalizeShots "[]" = ([], false) :=
  ⟨rfl, rfl⟩

/-- Witness: the amended C2 theorem applied to a concrete brace-free text. -/
theorem c2_witness : (normalizeShots "no json here").1 = [] :=
  c2_no_brace_empty "no json here" (Or.inl (by decide))

/-- C7: `askFollowUpQuestion` on a session id absent from the store returns
the defined failure string (the thrown `Session not found` error is caught)
and leaves the store untouched; on a stored id with a successful model call
it appends exactly the one (question, answer) exchange to that session's
dialogue and leaves every other stored session unchanged. -/
theorem c7_followup_store_contract :
    ∀ (sessionId question : String) (send : Except String String)
      (store : SessionStore),
      (store sessionId = none →
        askFollowUpQuestion sessionId question send store =
          (followUpErrorMsg, store)) ∧
      (∀ sess answer, store sessionId = some sess → send = Except.ok answer →
        (askFollowUpQuestion sessionId question send store).2 sessionId =
          some { sess with history := sess.history ++
            [⟨Role.user, question⟩, ⟨Role.model, answer⟩] } ∧
        ∀ sid2, sid2 ≠ sessionId →
          (askFollowUpQuestion sessionId question send store).2 sid2 =
            store sid2) := by
  intro sessionId question send store
  constructor
  · intro hnone
    unfold askFollowUpQuestion
    rw [hnone]
  · intro sess answer hsome hsend
    unfold askFollowUpQuestion
    rw [hsome, hsend]
    constructor
    · simp [updateStore]
    · intro sid2 hne
      simp [updateStore, hne]

/-- Witness: the C7 contract applied to the concrete store `store0`, on its
stored id and on a missing id. -/
theorem c7_witness :
    ((askFollowUpQuestion "sid-1" "what else" (Except.ok "more") store0).2
        "sid-1" =
      some { sess0 with history := sess0.history ++
        [⟨Role.user, "what else"⟩, ⟨Role.model, "more"⟩] } ∧
     ∀ sid2, sid2 ≠ "sid-1" →
      (askFollowUpQuestion "sid-1" "what else" (Except.ok "more") store0).2
          sid2 = store0 sid2) ∧
    askFollowUpQuestion "missing" "q" (Except.ok "a") store0 =
      (followUpErrorMsg, store0) :=
  ⟨(c7_followup_store_contract "sid-1" "what else" (Except.ok "more")
      store0).2 sess0 "more" rfl rfl,
   (c7_followup_store_contract "missing" "q" (Except.ok "a") store0).1 rfl⟩

/-- Matching after the canonical watch prefix reduces to the id check. -/
theorem isValid_watch_id (id : List Char) :
    isValidYouTubeUrl (String.mk ("https://www.youtube.com/watch?v=".data ++ id)) =
      idOk id := by
  have key : isValidYouTubeUrl
      (String.mk ("https://www.youtube.com/watch?v=".data ++ id)) =
      ((((idOk id || false) || (false || false)) || false) || false) := rfl
  rw [key]
  simp

theorem isValid_youtube_short_id (id : List Char) :
    isValidYouTubeUrl (String.mk ("https://youtu.be/".data ++ id)) = idOk id := by
  have key : isValidYouTubeUrl (String.mk ("https://youtu.be/".data ++ id)) =
      (((false || (false || idOk id)) || false) || false) := rfl
  rw [key]
  simp

/-- C8: `isValidYouTubeUrl` accepts the two canonical 11-character-id URLs,
rejects every identifier segment of length 10 or 12 (over any characters)
behind either canonical prefix, and rejects non-YouTube hosts. -/
theorem c8_isValidYouTubeUrl_contract :
    isValidYouTubeUrl "https://www.youtube.com/watch?v=dQw4w9WgXcQ" = true ∧
    isValidYouTubeUrl "https://youtu.be/dQw4w9WgXcQ" = true ∧
    (∀ id : List Char, id.length = 10 ∨ id.length = 12 →
      isValidYouTubeUrl
        (String.mk ("https://www.youtube.com/watch?v=".data ++ id)) = false ∧
      isValidYouTubeUrl (String.mk ("https://youtu.be/".data ++ id)) = false) ∧
    isValidYouTubeUrl "https://www.vimeo.com/watch?v=dQw4w9WgXcQ" = false ∧
    isValidYouTubeUrl "https://dailymotion.com/watch?v=dQw4w9WgXcQ" = false := by
  refine ⟨by decide, by decide, ?_, by decide, by decide⟩
  intro id hlen
  have hid : idOk id = false := by
    unfold idOk
    rcases hlen with h | h <;> simp [h]
  exact ⟨(isValid_watch_id id).trans hid, (isValid_youtube_short_id id).trans hid⟩

/-- Witness: the C8 contract applied to a concrete 10-character id. -/
theorem c8_witness :
    isValidYouTubeUrl
      (String.mk ("https://www.youtube.com/watch?v=".data ++ "dQw4w9WgXc".data)) =
      false :=
  (c8_isValidYouTubeUrl_contract.2.2.1 "dQw4w9WgXc".data (Or.inl (by decide))).1

/-- Exhaustive failure-or-success shape of the visual-description step. -/
theorem stepVisual_cases (src : VideoSource) (env : Env) (store : SessionStore)
    (now : Nat) (vd : Payload) (summary transcription : String)
    (shots : List JValue) (log : List Facet)
    (hlog : ∀ fc ∈ log, ∃ t, env.reply fc = Except.ok t) :
    ((stepVisual src env store now vd summary transcription shots log).1 = failResult ∧
     (stepVisual src env store now vd summary transcription shots log).2.1 = store) ∨
    ((stepVisual src env store now vd summary transcription shots log).1.error = none ∧
     (stepVisual src env store now vd summary transcription shots log).1.sessionId =
       some (generateSessionId src now) ∧
     ∀ fc ∈ (stepVisual src env store now vd summary transcription shots log).2.2,
       ∃ t, env.reply fc = Except.ok t) := by
  unfold stepVisual
  split_ifs with hf
  · split
    · exact Or.inl ⟨rfl, rfl⟩
    · rename_i t heq
      refine Or.inr ⟨rfl, rfl, ?_⟩
      intro fc hmem
      rcases List.mem_append.mp hmem with hm | hm
      · exact hlog fc hm
      · have : fc = Facet.visual := by simpa using hm
        subst this
        exact ⟨t, heq⟩
  · exact Or.inr ⟨rfl, rfl, fun fc hmem => hlog fc hmem⟩

theorem stepTranscription_cases (src : VideoSource) (env : Env)
    (store : SessionStore) (now : Nat) (vd : Payload) (summary : String)
    (shots : List JValue) (log : List Facet)
    (hlog : ∀ fc ∈ log, ∃ t, env.reply fc = Except.ok t) :
    ((stepTranscription src env store now vd summary shots log).1 = failResult ∧
     (stepTranscription src env store now vd summary shots log).2.1 = store) ∨
    ((stepTranscription src env store now vd summary shots log).1.error = none ∧
     (stepTranscription src env store now vd summary shots log).1.sessionId =
       some (generateSessionId src now) ∧
     ∀ fc ∈ (stepTranscription src env store now vd summary shots log).2.2,
       ∃ t, env.reply fc = Except.ok t) := by
  unfold stepTranscription
  split_ifs with hf
  · split
    · exact Or.inl ⟨rfl, rfl⟩
    · rename_i t heq
      refine stepVisual_cases src env store now vd summary t shots
        (log ++ [Facet.transcription]) ?_
      intro fc hmem
      rcases List.mem_append.mp hmem with hm | hm
      · exact hlog fc hm
      · have : fc = Facet.transcription := by simpa using hm
        subst this
        exact ⟨t, heq⟩
  · exact stepVisual_cases src env store now vd summary "" shots log hlog

theorem stepShots_cases (src : VideoSource) (env : Env) (store : SessionStore)
    (now : Nat) (vd : Payload) (summary : String) (log : List Facet)
    (hlog : ∀ fc ∈ log, ∃ t, env.reply fc = Except.ok t) :
    ((stepShots src env store now vd summary log).1 = failResult ∧
     (stepShots src env store now vd summary log).2.1 = store) ∨
    ((stepShots src env store now vd summary log).1.error = none ∧
     (stepShots src env store now vd summary log).1.sessionId =
       some (generateSessionId src now) ∧
     ∀ fc ∈ (stepShots src env store now vd summary log).2.2,
       ∃ t, env.reply fc = Except.ok t) := by
  unfold stepShots
  split_ifs with hf
  · split
    · exact Or.inl ⟨rfl, rfl⟩
    · rename_i t heq
      refine stepTranscription_cases src env store now vd summary
        (normalizeShots t).1 (log ++ [Facet.shots]) ?_
      intro fc hmem
      rcases List.mem_append.mp hmem with hm | hm
      · exact hlog fc hm
      · have : fc = Facet.shots := by simpa using hm
        subst this
        exact ⟨t, heq⟩
  · exact stepTranscription_cases src env store now vd summary [] log hlog

theorem analyzeVideo_cases (src : VideoSource) (env : Env)
    (store : SessionStore) (now : Nat) :
    ((analyzeVideo src env store now).1 = failResult ∧
     (analyzeVideo src env store now).2.1 = store) ∨
    ((analyzeVideo src env store now).1.error = none ∧
     (analyzeVideo src env store now).1.sessionId =
       some (generateSessionId src now) ∧
     ∀ fc ∈ (analyzeVideo src env store now).2.2,
       ∃ t, env.reply fc = Except.ok t) := by
  unfold analyzeVideo
  split
  · exact Or.inl ⟨rfl, rfl⟩
  · rename_i vd heq
    unfold stepSummary
    split_ifs with hf
    · exact stepShots_cases src env store now vd "" [] (by intro fc hm; simp at hm)
    · split
      · exact Or.inl ⟨rfl, rfl⟩
      · rename_i t heq2
        refine stepShots_cases src env store now vd t [Facet.summary] ?_
        intro fc hmem
        have : fc = Facet.summary := by simpa using hmem
        subst this
        exact ⟨t, heq2⟩

/-- C5: if any gateway call issued during `analyzeVideo` fails, the returned
result is exactly the generic failure record: `error` set to the generic
failure string, `summary` the (present) empty string, and every other field
absent — no partial result with the facets that had already succeeded. -/
theorem c5_gateway_failure_all_or_nothing (src : VideoSource) (env : Env)
    (store : SessionStore) (now : Nat)
    (h : ∃ fc e, fc ∈ (analyzeVideo src env store now).2.2 ∧
      env.reply fc = Except.error e) :
    (analyzeVideo src env store now).1 =
      { summary := some "",
        error := some "Failed to analyze video. Please try again." } := by
  rcases analyzeVideo_cases src env store now with ⟨hres, _⟩ | ⟨_, _, hok⟩
  · exact hres
  · obtain ⟨fc, e, hmem, herr⟩ := h
    obtain ⟨t, ht⟩ := hok fc hmem
    rw [herr] at ht
    cases ht

/-- Witness: C5 applied to the concrete run where the transcription call
fails after the summary succeeded. -/
theorem c5_witness :
    (analyzeVideo srcTFail envTFail emptyStore 42).1 =
      { summary := some "",
        error := some "Failed to analyze video. Please try again." } :=
  c5_gateway_failure_all_or_nothing srcTFail envTFail emptyStore 42
    ⟨Facet.transcription, "network failure", by decide, rfl⟩

/-- C10: whenever `analyzeVideo` returns a result with the error field set,
the `sessionId` field is absent and the session store is exactly what it was
before the call: the session entry is written only on the success path. -/
theorem c10_failure_atomic_store (src : VideoSource) (env : Env)
    (store : SessionStore) (now : Nat)
    (h : (analyzeVideo src env store now).1.error.isSome) :
    (analyzeVideo src env store now).1.sessionId = none ∧
    (analyzeVideo src env store now).2.1 = store := by
  rcases analyzeVideo_cases src env store now with ⟨hres, hst⟩ | ⟨herr, _, _⟩
  · exact ⟨by rw [hres]; rfl, hst⟩
  · rw [herr] at h
    cases h

/-- Witness: C10 applied to the concrete failing run. -/
theorem c10_witness :
    (analyzeVideo srcTFail envTFail emptyStore 42).1.sessionId = none ∧
    (analyzeVideo srcTFail envTFail emptyStore 42).2.1 = emptyStore :=
  c10_failure_atomic_store srcTFail envTFail emptyStore 42 (by decide)

/-- C6: with `includeSummary = true` and every other facet flag `false`,
when the encoder and all issued calls succeed and the model reply is
non-empty, `analyzeVideo` returns a result with `summary` populated,
`transcription`, `visualDescription` and `shotAnalysis` all absent (the
result type has no lip-flap field at all, so that facet is absent by
construction), no error, and a populated `sessionId`. -/
theorem c6_summary_only_run (src : VideoSource) (env : Env)
    (store : SessionStore) (now : Nat) (p : Payload) (s : String)
    (hsum : src.includeSummary = some true)
    (htr : src.includeTranscription = some false)
    (hvd : src.includeVisualDescription = some false)
    (hsa : src.includeShotAnalysis = some false)
    (henc : encodePayload src env = Except.ok p)
    (hrep : env.reply Facet.summary = Except.ok s) (hne : s ≠ "") :
    (analyzeVideo src env store now).1 =
      { summary := some s, sessionId := some (generateSessionId src now) } := by
  unfold analyzeVideo
  rw [henc]
  unfold stepSummary stepShots stepTranscription stepVisual finishAnalyze
  rw [hsum, hsa, htr, hvd, hrep]
  simp [emptyToNone, hne]

/-- C9 (implicit): the summary facet is opt-out while the others are opt-in:
with the encoder and all replies succeeding, the summary call is issued
exactly when `includeSummary` is not literally `false` (in particular when
the flag is omitted), each other facet call is issued exactly when its flag
is literally `true`, and an omitted `includeSummary` still populates the
summary from a non-empty reply. -/
theorem c9_summary_opt_out (src : VideoSource) (env : Env)
    (store : SessionStore) (now : Nat) (p : Payload)
    (henc : encodePayload src env = Except.ok p)
    (hok : ∀ fc, ∃ t, env.reply fc = Except.ok t) :
    ((Facet.summary ∈ (analyzeVideo src env store now).2.2) ↔
      src.includeSummary ≠ some false) ∧
    ((Facet.shots ∈ (analyzeVideo src env store now).2.2) ↔
      src.includeShotAnalysis = some true) ∧
    ((Facet.transcription ∈ (analyzeVideo src env store now).2.2) ↔
      src.includeTranscription = some true) ∧
    ((Facet.visual ∈ (analyzeVideo src env store now).2.2) ↔
      src.includeVisualDescription = some true) ∧
    (src.includeSummary = none → ∀ t, env.reply Facet.summary = Except.ok t →
      t ≠ "" → (analyzeVideo src env store now).1.summary = some t) := by
  obtain ⟨ts, hts⟩ := hok Facet.summary
  obtain ⟨tsh, htsh⟩ := hok Facet.shots
  obtain ⟨tt, htt⟩ := hok Facet.transcription
  obtain ⟨tv, htv⟩ := hok Facet.visual
  have hlog : (analyzeVideo src env store now).2.2 =
      ((if src.includeSummary = some false then [] else [Facet.summary]) ++
        (if src.includeShotAnalysis = some true then [Facet.shots] else []) ++
        (if src.includeTranscription = some true then [Facet.transcription] else []) ++
        (if src.includeVisualDescription = some true then [Facet.visual] else [])) := by
    unfold analyzeVideo
    rw [henc]
    unfold stepSummary stepShots stepTranscription stepVisual finishAnalyze
    rw [hts, htsh, htt, htv]
    by_cases h1 : src.includeSummary = some false <;>
      by_cases h2 : src.includeShotAnalysis = some true <;>
        by_cases h3 : src.includeTranscription = some true <;>
          by_cases h4 : src.includeVisualDescription = some true <;>
            simp [h1, h2, h3, h4]
  refine ⟨?_, ?_, ?_, ?_, ?_⟩
  · rw [hlog]
    by_cases h1 : src.includeSummary = some false <;>
      by_cases h2 : src.includeShotAnalysis = some true <;>
        by_cases h3 : src.includeTranscription = some true <;>
          by_cases h4 : src.includeVisualDescription = some true <;>
            simp [h1, h2, h3, h4]
  · rw [hlog]
    by_cases h1 : src.includeSummary = some false <;>
      by_cases h2 : src.includeShotAnalysis = some true <;>
        by_cases h3 : src.includeTranscription = some true <;>
          by_cases h4 : src.includeVisualDescription = some true <;>
            simp [h1, h2, h3, h4]
  · rw [hlog]
    by_cases h1 : src.includeSummary = some false <;>
      by_cases h2 : src.includeShotAnalysis = some true <;>
        by_cases h3 : src.includeTranscription = some true <;>
          by_cases h4 : src.includeVisualDescription = some true <;>
            simp [h1, h2, h3, h4]
  · rw [hlog]
    by_cases h1 : src.includeSummary = some false <;>
      by_cases h2 : src.includeShotAnalysis = some true <;>
        by_cases h3 : src.includeTranscription = some true <;>
          by_cases h4 : src.includeVisualDescription = some true <;>
            simp [h1, h2, h3, h4]
  · intro hnone t hrept hne
    unfold analyzeVideo
    rw [henc]
    unfold stepSummary stepShots stepTranscription stepVisual finishAnalyze
    rw [hrept, htsh, htt, htv]
    by_cases h2 : src.includeShotAnalysis = some true <;>
      by_cases h3 : src.includeTranscription = some true <;>
        by_cases h4 : src.includeVisualDescription = some true <;>
          simp [hnone, h2, h3, h4, emptyToNone, hne]

/-- Witness: C6 applied to the concrete summary-only run. -/
theorem c6_witness :
    (analyzeVideo srcSummaryOnly envAllOk emptyStore 42).1 =
      { summary := some "hello",
        sessionId := some (generateSessionId srcSummaryOnly 42) } :=
  c6_summary_only_run srcSummaryOnly envAllOk emptyStore 42
    (Payload.text "https://youtu.be/dQw4w9WgXcQ") "hello"
    rfl rfl rfl rfl rfl rfl (by decide)

/-- Witness: C9 applied to the concrete all-flags-omitted run: the summary
call is issued and the summary populated. -/
theorem c9_witness :
    Facet.summary ∈ (analyzeVideo srcAllOmitted envAllOk emptyStore 42).2.2 ∧
    (analyzeVideo srcAllOmitted envAllOk emptyStore 42).1.summary =
      some "hello" :=
  ⟨(c9_summary_opt_out srcAllOmitted envAllOk emptyStore 42
      (Payload.text "https://youtu.be/dQw4w9WgXcQ") rfl
      (fun _ => ⟨"hello", rfl⟩)).1.mpr (by decide),
   (c9_summary_opt_out srcAllOmitted envAllOk emptyStore 42
      (Payload.text "https://youtu.be/dQw4w9WgXcQ") rfl
      (fun _ => ⟨"hello", rfl⟩)).2.2.2.2 rfl "hello" rfl (by decide)⟩

/-- The tagged fence pattern fails to match unless the text is literally the
pattern followed by a rest. -/
theorem fence1Rest_eq_none (l : List Char)
    (h : ∀ r, l ≠ bq :: bq :: bq :: 'j' :: 's' :: 'o' :: 'n' :: r) :
    fence1Rest l = none := by
  unfold fence1Rest
  split
  · rename_i c1 c2 c3 r
    split_ifs with hcond
    · obtain ⟨h1, h2, h3⟩ := hcond
      subst h1 h2 h3
      exact absurd rfl (h r)
    · rfl
  · rfl

theorem fence2Rest_eq_none (l : List Char)
    (h : ∀ r, l ≠ bq :: bq :: bq :: r) : fence2Rest l = none := by
  unfold fence2Rest
  split
  · rename_i c1 c2 c3 r
    split_ifs with hcond
    · obtain ⟨h1, h2, h3⟩ := hcond
      subst h1 h2 h3
      exact absurd rfl (h r)
    · rfl
  · rfl

theorem strip1Go_short : ∀ (l : List Char) (f : Nat), l.length < 7 →
    strip1Go f l = l := by
  intro l
  induction l with
  | nil => intro f _; exact strip1Go_nil f
  | cons c rest ih =>
    intro f hlen
    cases f with
    | zero => rfl
    | succ f =>
      have hn : fence1Rest (c :: rest) = none := by
        apply fence1Rest_eq_none
        intro r hr
        rw [hr] at hlen
        simp at hlen
        omega
      simp only [strip1Go, hn]
      exact congrArg (List.cons c) (ih f (by simpa using Nat.lt_of_succ_lt hlen))

theorem strip2Go_short : ∀ (l : List Char) (f : Nat), l.length < 3 →
    strip2Go f l = l := by
  intro l
  induction l with
  | nil => intro f _; exact strip2Go_nil f
  | cons c rest ih =>
    intro f hlen
    cases f with
    | zero => rfl
    | succ f =>
      have hn : fence2Rest (c :: rest) = none := by
        apply fence2Rest_eq_none
        intro r hr
        rw [hr] at hlen
        simp at hlen
        omega
      simp only [strip2Go, hn]
      exact congrArg (List.cons c) (ih f (by simpa using Nat.lt_of_succ_lt hlen))

theorem strip2Go_fenceTail (g : Nat) (hg : 2 ≤ g) :
    strip2Go g fenceTail = ['\n'] := by
  rcases g with _ | _ | g
  · omega
  · omega
  · have h1 : fence2Rest fenceTail = none :=
      fence2Rest_eq_none_of_head _ _ (by decide)
    have h2 : fence2Rest (bq :: bq :: bq :: ([] : List Char)) = some [] := rfl
    show strip2Go (g + 1 + 1) fenceTail = ['\n']
    rw [show fenceTail = '\n' :: bq :: bq :: bq :: [] from rfl] at h1 ⊢
    simp only [strip2Go, fence2Rest_eq_none_of_head '\n' _ (by decide), h2,
      List.dropWhile_nil, strip2Go_nil]

theorem strip2Go_udrop_tail (u : List Char) (hbt : ∀ c ∈ u, c ≠ bq) (f : Nat)
    (hf : u.length + 2 ≤ f) :
    strip2Go f (u ++ fenceTail) = u ++ ['\n'] := by
  rw [strip2Go_append_noBT u fenceTail hbt f,
    strip2Go_fenceTail (f - u.length) (by omega)]

theorem dropWhile_head_false : ∀ (l : List Char) (c : Char) (u : List Char),
    l.dropWhile jsWS = c :: u → jsWS c = false := by
  intro l
  induction l with
  | nil => intro c u h; simp at h
  | cons a l ih =>
    intro c u h
    rw [List.dropWhile_cons] at h
    split_ifs at h with ha
    · exact ih c u h
    · injection h with h1 h2
      subst h1
      simpa using ha

theorem strip1_wrapJson (t : String) (hbt : ∀ c ∈ t.data, c ≠ bq) :
    strip1 (wrapJson t).data =
      (if (t.data.dropWhile jsWS).isEmpty then [bq, bq, bq]
       else t.data.dropWhile jsWS ++ fenceTail) := by
  obtain ⟨l⟩ := t
  have hdata : (wrapJson (String.mk l)).data =
      bq :: bq :: bq :: 'j' :: 's' :: 'o' :: 'n' :: '\n' :: (l ++ fenceTail) := rfl
  unfold strip1
  rw [hdata]
  have hlen : (bq :: bq :: bq :: 'j' :: 's' :: 'o' :: 'n' :: '\n' ::
      (l ++ fenceTail)).length = (l ++ fenceTail).length + 8 := by
    simp
  rw [hlen]
  have hf : fence1Rest (bq :: bq :: bq :: 'j' :: 's' :: 'o' :: 'n' :: '\n' ::
      (l ++ fenceTail)) = some ('\n' :: (l ++ fenceTail)) := rfl
  simp only [strip1Go, hf]
  rw [List.dropWhile_cons]
  rw [if_pos (show jsWS '\n' = true from rfl)]
  rw [List.dropWhile_append]
  by_cases hcase : (l.dropWhile jsWS).isEmpty
  · rw [if_pos hcase, if_pos hcase]
    have hdt : List.dropWhile jsWS fenceTail = [bq, bq, bq] := rfl
    rw [hdt]
    exact strip1Go_short _ _ (by simp)
  · rw [if_neg hcase, if_neg hcase]
    have hu : ∀ c ∈ l.dropWhile jsWS, c ≠ bq :=
      fun c hc => hbt c ((List.dropWhile_suffix _).subset hc)
    rw [strip1Go_append_noBT _ _ hu]
    rw [strip1Go_short _ _ (by simp [fenceTail])]

theorem stripsTrim_wrapJson (t : String) (hbt : ∀ c ∈ t.data, c ≠ bq) :
    jsTrim (strip2 (strip1 (wrapJson t).data)) = jsTrim t.data := by
  rw [strip1_wrapJson t hbt]
  by_cases hcase : (t.data.dropWhile jsWS).isEmpty
  · rw [if_pos hcase]
    have h1 : strip2 [bq, bq, bq] = [] := rfl
    rw [h1]
    have h2 : t.data.dropWhile jsWS = [] := List.isEmpty_iff.mp hcase
    unfold jsTrim
    rw [h2]
    rfl
  · rw [if_neg hcase]
    have hune : t.data.dropWhile jsWS ≠ [] := by
      simpa [List.isEmpty_iff] using hcase
    obtain ⟨c, u', huc⟩ : ∃ c u', t.data.dropWhile jsWS = c :: u' := by
      cases hh : t.data.dropWhile jsWS with
      | nil => exact absurd hh hune
      | cons c u' => exact ⟨c, u', rfl⟩
    have hcws : jsWS c = false := dropWhile_head_false t.data c u' huc
    have hubt : ∀ x ∈ t.data.dropWhile jsWS, x ≠ bq :=
      fun x hx => hbt x ((List.dropWhile_suffix _).subset hx)
    have hlen4 : (t.data.dropWhile jsWS ++ fenceTail).length =
        (t.data.dropWhile jsWS).length + 4 := by simp [fenceTail]
    have hstrip2 : strip2 (t.data.dropWhile jsWS ++ fenceTail) =
        t.data.dropWhile jsWS ++ ['\n'] := by
      unfold strip2
      rw [hlen4]
      exact strip2Go_udrop_tail _ hubt _ (by omega)
    rw [hstrip2]
    unfold jsTrim
    have hfront : List.dropWhile jsWS (t.data.dropWhile jsWS ++ ['\n']) =
        t.data.dropWhile jsWS ++ ['\n'] := by
      rw [huc, List.cons_append, List.dropWhile_cons, if_neg (by simp [hcws])]
    rw [hfront]
    rw [List.reverse_append]
    simp only [List.reverse_cons, List.reverse_nil, List.nil_append,
      List.singleton_append]
    rw [List.dropWhile_cons, if_pos (show jsWS '\n' = true from rfl)]

theorem jsTrim_u_nl (s : List Char) :
    jsTrim (s.dropWhile jsWS ++ ['\n']) = jsTrim s := by
  cases huc : s.dropWhile jsWS with
  | nil =>
    unfold jsTrim
    rw [huc]
    rfl
  | cons c u' =>
    have hcws : jsWS c = false := dropWhile_head_false s c u' huc
    unfold jsTrim
    rw [huc]
    have hfront : List.dropWhile jsWS ((c :: u') ++ ['\n']) = (c :: u') ++ ['\n'] := by
      rw [List.cons_append, List.dropWhile_cons, if_neg (by simp [hcws])]
    rw [hfront]
    rw [List.reverse_append]
    simp only [List.reverse_cons, List.reverse_nil, List.nil_append,
      List.singleton_append]
    rw [List.dropWhile_cons, if_pos (show jsWS '\n' = true from rfl)]

theorem strip2Go_bbb (g : Nat) (hg : 1 ≤ g) : strip2Go g [bq, bq, bq] = [] := by
  rcases g with _ | g
  · omega
  · have h2 : fence2Rest (bq :: bq :: bq :: ([] : List Char)) = some [] := rfl
    simp only [strip2Go, h2, List.dropWhile_nil, strip2Go_nil]

theorem strip1Go_wrapPlain (l : List Char) (hbt : ∀ c ∈ l, c ≠ bq) :
    ∀ f, strip1Go f (bq :: bq :: bq :: '\n' :: (l ++ fenceTail)) =
      bq :: bq :: bq :: '\n' :: (l ++ fenceTail) := by
  have hn0 : fence1Rest (bq :: bq :: bq :: '\n' :: (l ++ fenceTail)) = none := by
    apply fence1Rest_eq_none
    intro r h
    have h2 := congrArg (fun x => x.get? 3) h
    simp at h2
  have hn1 : fence1Rest (bq :: bq :: '\n' :: (l ++ fenceTail)) = none := by
    apply fence1Rest_eq_none
    intro r h
    have h2 := congrArg (fun x => x.get? 2) h
    simp at h2
    exact absurd h2 (by decide)
  have hn2 : fence1Rest (bq :: '\n' :: (l ++ fenceTail)) = none := by
    apply fence1Rest_eq_none
    intro r h
    have h2 := congrArg (fun x => x.get? 1) h
    simp at h2
    exact absurd h2 (by decide)
  have hn3 : fence1Rest ('\n' :: (l ++ fenceTail)) = none :=
    fence1Rest_eq_none_of_head _ _ (by decide)
  intro f
  cases f with
  | zero => rfl
  | succ f1 =>
    simp only [strip1Go, hn0]
    cases f1 with
    | zero => rfl
    | succ f2 =>
      simp only [strip1Go, hn1]
      cases f2 with
      | zero => rfl
      | succ f3 =>
        simp only [strip1Go, hn2]
        cases f3 with
        | zero => rfl
        | succ f4 =>
          simp only [strip1Go, hn3]
          rw [strip1Go_append_noBT l fenceTail hbt f4]
          rw [strip1Go_short fenceTail _ (by simp [fenceTail])]

theorem stripsTrim_wrapPlain (t : String) (hbt : ∀ c ∈ t.data, c ≠ bq) :
    jsTrim (strip2 (strip1 (wrapPlain t).data)) = jsTrim t.data := by
  obtain ⟨l⟩ := t
  have hbt2 : ∀ c ∈ l, c ≠ bq := hbt
  have hdata : (wrapPlain (String.mk l)).data =
      bq :: bq :: bq :: '\n' :: (l ++ fenceTail) := rfl
  rw [hdata]
  rw [show strip1 (bq :: bq :: bq :: '\n' :: (l ++ fenceTail)) =
      bq :: bq :: bq :: '\n' :: (l ++ fenceTail) from strip1Go_wrapPlain l hbt2 _]
  unfold strip2
  have hlen : (bq :: bq :: bq :: '\n' :: (l ++ fenceTail)).length =
      (l ++ fenceTail).length + 4 := by simp
  rw [hlen]
  have hf2 : fence2Rest (bq :: bq :: bq :: '\n' :: (l ++ fenceTail)) =
      some ('\n' :: (l ++ fenceTail)) := rfl
  simp only [strip2Go, hf2]
  rw [List.dropWhile_cons, if_pos (show jsWS '\n' = true from rfl),
    List.dropWhile_append]
  by_cases hcase : (l.dropWhile jsWS).isEmpty
  · rw [if_pos hcase]
    have hdt : List.dropWhile jsWS fenceTail = [bq, bq, bq] := rfl
    rw [hdt, strip2Go_bbb _ (by omega)]
    have h2 : l.dropWhile jsWS = [] := List.isEmpty_iff.mp hcase
    unfold jsTrim
    rw [h2]
    rfl
  · rw [if_neg hcase]
    have hubt : ∀ x ∈ l.dropWhile jsWS, x ≠ bq :=
      fun x hx => hbt2 x ((List.dropWhile_suffix _).subset hx)
    rw [strip2Go_udrop_tail _ hubt _ (by
      have hle : (l.dropWhile jsWS).length ≤ l.length :=
        (List.dropWhile_suffix jsWS).length_le
      simp only [List.length_append]
      omega)]
    exact jsTrim_u_nl l

/-- C4: wrapping a (fence-free) shot-analysis text in code-fence markers,
with or without the `json` language tag, yields exactly the same normalizer
result (record list and diagnostic) as running the normalizer on the
unfenced text.  A text that is itself free of backquotes is what can be
meaningfully wrapped in fences; the two strip passes remove the added fence
markers and trimming absorbs the leftover newline. -/
theorem c4_fence_wrapping_invariant (t : String)
    (hbt : t.data.all (fun c => c != bq) = true) :
    normalizeShots (wrapJson t) = normalizeShots t ∧
    normalizeShots (wrapPlain t) = normalizeShots t := by
  have hnb : ∀ c ∈ t.data, c ≠ bq := by
    intro c hc
    simpa using List.all_eq_true.mp hbt c hc
  have hclean1 : cleanChars (wrapJson t).data = cleanChars t.data := by
    unfold cleanChars
    rw [stripsTrim_wrapJson t hnb, strip1_of_noBT t.data hnb,
      strip2_of_noBT t.data hnb]
  have hclean2 : cleanChars (wrapPlain t).data = cleanChars t.data := by
    unfold cleanChars
    rw [stripsTrim_wrapPlain t hnb, strip1_of_noBT t.data hnb,
      strip2_of_noBT t.data hnb]
  unfold normalizeShots
  rw [hclean1, hclean2]
  exact ⟨rfl, rfl⟩

/-- Witness: C4 applied to a concrete fence-free shots reply. -/
theorem c4_witness :
    normalizeShots (wrapJson "\x7b\"shots\": []\x7d") =
      normalizeShots "\x7b\"shots\": []\x7d" ∧
    normalizeShots (wrapPlain "\x7b\"shots\": []\x7d") =
      normalizeShots "\x7b\"shots\": []\x7d" :=
  c4_fence_wrapping_invariant "\x7b\"shots\": []\x7d" (by decide)
